import Mathlib

/-!
Verification of the StatsD event-processing core: a shallow embedding of
StatsLogProcessor.cpp and utils/MultiConditionTrigger.cpp, with the external
collaborators (MetricsManager, StorageManager, UidMap, StatsdStats constants,
broadcast callbacks) represented by explicit state and per-call oracles.
-/

namespace Statsd

/-! Association-list maps modelling the processor's unordered maps and sets. -/

def alookup {κ α : Type} [DecidableEq κ] : List (κ × α) → κ → Option α
  | [], _ => none
  | (k, v) :: rest, key => if k = key then some v else alookup rest key

def aset {κ α : Type} [DecidableEq κ] : List (κ × α) → κ → α → List (κ × α)
  | [], key, v => [(key, v)]
  | (k, w) :: rest, key, v =>
    if k = key then (key, v) :: rest else (k, w) :: aset rest key v

def aerase {κ α : Type} [DecidableEq κ] : List (κ × α) → κ → List (κ × α)
  | [], _ => []
  | (k, w) :: rest, key => if k = key then rest else (k, w) :: aerase rest key

/-- ConfigKey = (uid, id), the unique identifier of a configuration. -/
structure ConfigKey where
  uid : Int
  id : Int
deriving DecidableEq, Repr

/-- Modelled from the spec: atom tag ids and enum values from the external
generated header statslog_statsd.h (not in src/); only their distinctness is
used by any theorem. -/
def BINARY_PUSH_STATE_CHANGED : Int := 102

def WATCHDOG_ROLLBACK_OCCURRED : Int := 147

def ISOLATED_UID_CHANGED : Int := 43

def APP_BREADCRUMB_REPORTED : Int := 47

def STATE_INSTALL_SUCCESS : Int := 5

def STATE_INSTALLER_ROLLBACK_INITIATED : Int := 6

def STATE_INSTALLER_ROLLBACK_SUCCESS : Int := 7

def ROLLBACK_TYPE_ROLLBACK_INITIATE : Int := 1

def ROLLBACK_TYPE_ROLLBACK_SUCCESS : Int := 2

/-- Modelled from the spec: the statsd principal uid (external constant). -/
def AID_STATSD : Int := 1066

/-- Modelled from the spec: multiuser_get_user_id(uid) = uid / PER_USER_RANGE. -/
def PER_USER_RANGE : Int := 100000

/-- Modelled from the spec: the event value model (logd/LogEvent.h is not in
src/). Per spec section 3 an event carries a positional list of typed field
values. A storage field carries the decoded experiment-id payload (some ids)
or an undecodable blob (none), standing in for the external proto codec. -/
inductive FieldValue
  | intV (v : Int)
  | longV (v : Int)
  | boolV (b : Bool)
  | stringV (s : String)
  | floatV
  | storageV (blob : Option (List Int))
deriving DecidableEq, Repr

/-- Modelled from the spec: a decoded inbound event (spec section 6): tag id,
origin uid/pid, validity and restricted bits, and the positional field list.
uidFieldIndices records which 1-based positions are uid-annotated. -/
structure LogEvent where
  tagId : Int
  uid : Int
  pid : Int
  isValid : Bool
  isRestricted : Bool
  values : List FieldValue
  uidFieldIndices : List Int
deriving DecidableEq, Repr

def LogEvent.size (e : LogEvent) : Nat := e.values.length

/-- Positional access with 1-based field ids, as in LogEvent::Get*. -/
def LogEvent.getAt (e : LogEvent) (fieldId : Int) : Option FieldValue :=
  if 1 ≤ fieldId ∧ fieldId ≤ (e.values.length : Int) then
    e.values.get? (fieldId - 1).toNat
  else none

def LogEvent.GetLong (e : LogEvent) (fieldId : Int) : Option Int :=
  match e.getAt fieldId with
  | some (.intV v) => some v
  | some (.longV v) => some v
  | _ => none

def LogEvent.GetInt (e : LogEvent) (fieldId : Int) : Option Int :=
  match e.getAt fieldId with
  | some (.intV v) => some v
  | _ => none

def LogEvent.GetBool (e : LogEvent) (fieldId : Int) : Option Bool :=
  match e.getAt fieldId with
  | some (.boolV b) => some b
  | _ => none

def LogEvent.GetString (e : LogEvent) (fieldId : Int) : Option String :=
  match e.getAt fieldId with
  | some (.stringV s) => some s
  | _ => none

def LogEvent.GetStorage (e : LogEvent) (fieldId : Int) : Option (Option (List Int)) :=
  match e.getAt fieldId with
  | some (.storageV b) => some b
  | _ => none

def LogEvent.updateValue (e : LogEvent) (fieldId : Int) (v : FieldValue) : LogEvent :=
  if 1 ≤ fieldId ∧ fieldId ≤ (e.values.length : Int) then
    { e with values := e.values.set (fieldId - 1).toNat v }
  else e

/-- InstallTrainInfo, the persisted per-train record (spec section 3). -/
structure InstallTrainInfo where
  trainName : String
  trainVersionCode : Int
  requiresStaging : Bool
  rollbackEnabled : Bool
  requiresLowLatencyMonitor : Bool
  status : Int
  experimentIds : List Int
deriving DecidableEq, Repr

/-- Modelled from the spec: the value-initialized InstallTrainInfo produced when
StorageManager::readTrainInfo fails (StorageManager is not in src/). -/
def defaultTrainInfo : InstallTrainInfo :=
  { trainName := "", trainVersionCode := -1, requiresStaging := false,
    rollbackEnabled := false, requiresLowLatencyMonitor := false,
    status := 0, experimentIds := [] }

/-- Modelled from the spec: the per-train on-disk store keyed by train name
(StorageManager is not in src/; reads return the last value written). -/
def Disk : Type := String → Option InstallTrainInfo

def readTrainInfo (d : Disk) (name : String) : Option InstallTrainInfo := d name

def writeTrainInfo (d : Disk) (ti : InstallTrainInfo) : Disk :=
  fun n => if n = ti.trainName then some ti else d n

def writeExperimentIdsToProto (ids : List Int) : Option (List Int) := some ids

/-- The status switch of getAndUpdateTrainInfoOnDisk (StatsLogProcessor.cpp
lines 277-297): when the resolved experiment-id list is non-empty, append the
status-derived marker id unless it is already present. -/
def applyStatusMarkers (status : Int) (ids : List Int) : List Int :=
  match ids.head? with
  | none => ids
  | some firstId =>
    if status = STATE_INSTALL_SUCCESS then
      if (firstId + 1) ∈ ids then ids else ids ++ [firstId + 1]
    else if status = STATE_INSTALLER_ROLLBACK_INITIATED then
      if (firstId + 2) ∈ ids then ids else ids ++ [firstId + 2]
    else if status = STATE_INSTALLER_ROLLBACK_SUCCESS then
      if (firstId + 3) ∈ ids then ids else ids ++ [firstId + 3]
    else ids

/-- StatsLogProcessor::getAndUpdateTrainInfoOnDisk (lines 243-308), with the
on-disk store passed explicitly. Returns the reconciled train info (also
patched back into the event by the caller) and the updated store. -/
def getAndUpdateTrainInfoOnDisk (d : Disk) (isRollback : Bool)
    (tiIn : InstallTrainInfo) : InstallTrainInfo × Disk :=
  if tiIn.trainName = "" then (tiIn, d)
  else
    let tiOnDiskOpt := readTrainInfo d tiIn.trainName
    let tiOnDisk := tiOnDiskOpt.getD defaultTrainInfo
    let readOk := tiOnDiskOpt.isSome
    let ti1 :=
      if readOk ∧ tiIn.trainVersionCode = -1 then
        { tiIn with trainVersionCode := tiOnDisk.trainVersionCode }
      else tiIn
    let resetExperimentIds : Bool :=
      readOk ∧ ((tiIn.trainVersionCode ≠ -1 ∧
                  tiIn.trainVersionCode ≠ tiOnDisk.trainVersionCode) ∨
        (tiIn.experimentIds ≠ [] ∧
          (tiOnDisk.experimentIds = [] ∨
            tiIn.experimentIds.head? ≠ tiOnDisk.experimentIds.head?)))
    let ti2 :=
      if (¬ resetExperimentIds ∨ isRollback) ∧ readOk then
        { ti1 with experimentIds := tiOnDisk.experimentIds }
      else ti1
    let ti3 := { ti2 with experimentIds := applyStatusMarkers ti2.status ti2.experimentIds }
    let ti4 :=
      if isRollback then
        { ti3 with requiresStaging := tiOnDisk.requiresStaging,
                   rollbackEnabled := tiOnDisk.rollbackEnabled,
                   requiresLowLatencyMonitor := tiOnDisk.requiresLowLatencyMonitor }
      else ti3
    (ti4, writeTrainInfo d ti4)

/-- StatsLogProcessor::processWatchdogRollbackOccurred (lines 337-375): load
the train record named by the package, append the rollback marker with dedup,
write back, and return the resulting experiment-id list. -/
def processWatchdogRollbackOccurred (d : Disk) (rollbackType : Int)
    (packageName : String) : List Int × Disk :=
  if packageName = "" then ([], d)
  else
    match readTrainInfo d packageName with
    | none => ([], d)
    | some tiOnDisk =>
      match tiOnDisk.experimentIds.head? with
      | none => ([], d)
      | some firstId =>
        if rollbackType = ROLLBACK_TYPE_ROLLBACK_INITIATE then
          let ids := if (firstId + 4) ∈ tiOnDisk.experimentIds then
              tiOnDisk.experimentIds else tiOnDisk.experimentIds ++ [firstId + 4]
          let ti := { tiOnDisk with experimentIds := ids }
          (ids, writeTrainInfo d ti)
        else if rollbackType = ROLLBACK_TYPE_ROLLBACK_SUCCESS then
          let ids := if (firstId + 5) ∈ tiOnDisk.experimentIds then
              tiOnDisk.experimentIds else tiOnDisk.experimentIds ++ [firstId + 5]
          let ti := { tiOnDisk with experimentIds := ids }
          (ids, writeTrainInfo d ti)
        else (tiOnDisk.experimentIds, d)

/-- StatsLogProcessor::onBinaryPushStateChangedEventLocked (lines 183-241):
permission-gated parse of the binary-push atom, reconciliation with the
on-disk train record, and patching of the event fields. -/
def onBinaryPushStateChangedEventLocked (d : Disk) (hasDump hasUsage : Bool)
    (ev : LogEvent) : LogEvent × Disk :=
  if hasDump && hasUsage then
    match ev.GetString 1, ev.GetLong 2, ev.GetBool 3, ev.GetBool 4 with
    | some trainName, some version, some staging, some rollbackOn =>
      match ev.GetBool 5, ev.GetLong 6, ev.GetStorage 7, ev.GetBool 10 with
      | some lowLatency, some status, some blob, some isRollback =>
        match blob with
        | none => (ev, d)
        | some expIds =>
          let ti : InstallTrainInfo :=
            { trainName := trainName, trainVersionCode := version,
              requiresStaging := staging, rollbackEnabled := rollbackOn,
              requiresLowLatencyMonitor := lowLatency, status := status,
              experimentIds := expIds }
          let r := getAndUpdateTrainInfoOnDisk d isRollback ti
          let userId := ev.uid / PER_USER_RANGE
          let ev1 := ev.updateValue 2 (.longV r.1.trainVersionCode)
          let ev2 := ev1.updateValue 7
            (.storageV (writeExperimentIdsToProto r.1.experimentIds))
          let ev3 := ev2.updateValue 8 (.intV userId)
          let ev4 :=
            if isRollback then
              (((ev3.updateValue 3
                    (.intV (if r.1.requiresStaging then 1 else 0))).updateValue 4
                  (.intV (if r.1.rollbackEnabled then 1 else 0))).updateValue 5
                (.intV (if r.1.requiresLowLatencyMonitor then 1 else 0)))
            else ev3
          (ev4, r.2)
      | _, _, _, _ => (ev, d)
    | _, _, _, _ => (ev, d)
  else (ev, d)

/-- StatsLogProcessor::onWatchdogRollbackOccurredLocked (lines 310-335). -/
def onWatchdogRollbackOccurredLocked (d : Disk) (hasDump hasUsage : Bool)
    (ev : LogEvent) : LogEvent × Disk :=
  if hasDump && hasUsage then
    match ev.GetInt 1, ev.GetString 2 with
    | some rollbackType, some packageName =>
      let r := processWatchdogRollbackOccurred d rollbackType packageName
      (ev.updateValue 6 (.storageV (writeExperimentIdsToProto r.1)), r.2)
    | _, _ => (ev, d)
  else (ev, d)

/-- StatsLogProcessor::validateAppBreadcrumbEvent (lines 1519-1553): the uid
is read at field id size()-2 and the state at field id size(), exactly as in
the source. -/
def validateAppBreadcrumbEvent (hostUid : Int → Int) (ev : LogEvent) : Bool :=
  if ev.tagId = APP_BREADCRUMB_REPORTED then
    match ev.GetLong ((ev.size : Int) - 2) with
    | none => false
    | some appHookUid =>
      let loggerUid := hostUid ev.uid
      if loggerUid ≠ appHookUid ∧ loggerUid ≠ AID_STATSD then false
      else
        match ev.GetLong (ev.size : Int) with
        | none => false
        | some appHookState =>
          if appHookState < 0 ∨ appHookState > 3 then false else true
  else true

/-- Modelled from the spec: uid normalization (spec 4.1 step 4). Both source
branches rewrite uid-typed fields (the attribution-chain range, or all
uid-annotated fields) to their host uid; the uid-annotation metadata of the
external LogEvent is modelled by uidFieldIndices. -/
def mapIsolatedUidToHostUidIfNecessaryLocked (hostUid : Int → Int)
    (ev : LogEvent) : LogEvent :=
  { ev with values := ev.values.mapIdx (fun i v =>
      if ((i : Int) + 1) ∈ ev.uidFieldIndices then
        match v with
        | .intV x => .intV (hostUid x)
        | .longV x => .longV (hostUid x)
        | w => w
      else v) }

/-- Modelled from the spec: the MetricsManager interface consumed by the
processor (metrics/MetricsManager.h is not in src/). dropData clears the
buffered data to zero bytes (spec section 8 scenario 3) and
flushRestrictedData moves buffered restricted data into the external store.
delegateValidatedUids models validateRestrictedMetricsDelegate. -/
structure MMgr where
  byteSize : Nat
  maxMetricsBytes : Nat
  triggerGetDataBytes : Nat
  hasRestrictedMetricsDelegate : Bool
  restrictedMetricsDelegate : String
  metricIds : List Int
  delegateValidatedUids : List Int
  isActive : Bool
deriving DecidableEq, Repr

def MMgr.dropData (m : MMgr) : MMgr := { m with byteSize := 0 }

def MMgr.flushRestrictedData (m : MMgr) : MMgr := { m with byteSize := 0 }

/-- Modelled from the spec: guardrail constants from guardrail/StatsdStats.h
and the runtime flag isAtLeastU (both external to src/); theorems state the
sign conditions they need explicitly. -/
structure Params where
  kMinByteSizeCheckPeriodNs : Int
  kMinBroadcastPeriodNs : Int
  kMinActivationBroadcastPeriodNs : Int
  kBytesPerRestrictedConfigTriggerFlush : Nat
  isAtLeastU : Bool
deriving DecidableEq, Repr

/-- Observable side effects of the processor: calls into StatsdStats and the
broadcast callbacks, and invocations of the managers. -/
inductive Emit
  | noteAtomError (tag : Int)
  | mgrInvoked (key : ConfigKey)
  | noteActiveStatusChanged (key : ConfigKey) (active : Bool)
  | dataDropped (key : ConfigKey) (bytes : Nat)
  | broadcastSent (key : ConfigKey)
  | activationSent (uid : Int) (configIds : List Int)
  | activationGuardrailHit (uid : Int)
  | restrictedMetricsBroadcast (key : ConfigKey) (delegate : String)
      (metricIds : List Int)
deriving DecidableEq, Repr

/-- The per-key and per-uid bookkeeping of StatsLogProcessor
(StatsLogProcessor.h lines 192-215, 358). -/
structure ProcState where
  metricsManagers : List (ConfigKey × MMgr)
  lastBroadcastTimes : List (ConfigKey × Int)
  lastActivationBroadcastTimes : List (Int × Int)
  lastByteSizeTimes : List (ConfigKey × Int)
  onDiskDataConfigs : List ConfigKey
  lastWriteTimeNs : Int
deriving DecidableEq, Repr

def initialProcState (managers : List (ConfigKey × MMgr)) : ProcState :=
  { metricsManagers := managers, lastBroadcastTimes := [],
    lastActivationBroadcastTimes := [], lastByteSizeTimes := [],
    onDiskDataConfigs := [], lastWriteTimeNs := 0 }

structure FlushResult where
  mgr : MMgr
  lastBroadcastTimes : List (ConfigKey × Int)
  lastByteSizeTimes : List (ConfigKey × Int)
  onDiskDataConfigs : List ConfigKey
  emits : List Emit
deriving DecidableEq, Repr

/-- Whether the byte-size check of flushIfNecessaryLocked is due for a key
(the negation of its rate-limit skip, lines 1106-1111). -/
def byteSizeCheckDue (P : Params) (now : Int) (lbst : List (ConfigKey × Int))
    (key : ConfigKey) : Bool :=
  match alookup lbst key with
  | some t => decide (P.kMinByteSizeCheckPeriodNs ≤ now - t)
  | none => true

/-- Whether a data-ready broadcast is allowed by its rate limit for a key (the
negation of the early return at lines 1141-1148). -/
def broadcastDue (P : Params) (now : Int) (lbt : List (ConfigKey × Int))
    (key : ConfigKey) : Bool :=
  match alookup lbt key with
  | some t => decide (P.kMinBroadcastPeriodNs ≤ now - t)
  | none => true

/-- StatsLogProcessor::flushIfNecessaryLocked (lines 1103-1156); the source's
rate-limit early returns appear here as the negative branches of the
byteSizeCheckDue and broadcastDue guards. -/
def flushIfNecessaryLocked (P : Params) (now : Int) (key : ConfigKey) (m : MMgr)
    (broadcastOk : Bool) (lastBroadcastTimes : List (ConfigKey × Int))
    (lastByteSizeTimes : List (ConfigKey × Int))
    (onDiskDataConfigs : List ConfigKey) : FlushResult :=
  if byteSizeCheckDue P now lastByteSizeTimes key then
    let totalBytes := m.byteSize
    let lbst := aset lastByteSizeTimes key now
    let kBytesPerConfig := if m.hasRestrictedMetricsDelegate then
        P.kBytesPerRestrictedConfigTriggerFlush else m.triggerGetDataBytes
    if totalBytes > m.maxMetricsBytes then
      ⟨m.dropData, lastBroadcastTimes, lbst, onDiskDataConfigs,
        [.dataDropped key totalBytes]⟩
    else if totalBytes > kBytesPerConfig ∨ key ∈ onDiskDataConfigs then
      if m.hasRestrictedMetricsDelegate then
        ⟨m.flushRestrictedData, lastBroadcastTimes, lbst, onDiskDataConfigs, []⟩
      else if broadcastDue P now lastBroadcastTimes key then
        if broadcastOk then
          ⟨m, aset lastBroadcastTimes key now, lbst,
            onDiskDataConfigs.erase key, [.broadcastSent key]⟩
        else ⟨m, lastBroadcastTimes, lbst, onDiskDataConfigs, []⟩
      else ⟨m, lastBroadcastTimes, lbst, onDiskDataConfigs, []⟩
    else ⟨m, lastBroadcastTimes, lbst, onDiskDataConfigs, []⟩
  else ⟨m, lastBroadcastTimes, lastByteSizeTimes, onDiskDataConfigs, []⟩

/-- The rebuild outcome when a config's ttl expired and it is reloaded from
the on-disk config store (resetConfigsLocked, lines 819-835):
rebuilt = OnConfigUpdatedLocked on the re-read config produced this manager,
readFailed = the disk read failed (manager kept, ttl refreshed),
invalid = the re-read config no longer validated (manager erased). -/
inductive TtlRebuild
  | rebuilt (m : MMgr)
  | readFailed
  | invalid

/-- One OnLogEvent call's inputs: the event, the clock, the caller's
permissions, and the oracles standing for the external collaborators
(UidMap host-uid lookup, each manager's reaction to the event, the broadcast
callbacks' return values, and the ttl/rebuild outcomes). -/
structure EventStep where
  ev : LogEvent
  now : Int
  hasDump : Bool
  hasUsage : Bool
  hostUid : Int → Int
  newByteSize : ConfigKey → Nat
  newActive : ConfigKey → Bool
  broadcastOk : ConfigKey → Bool
  activationOk : Int → Bool
  ttlExpired : ConfigKey → Bool
  rebuiltMgr : ConfigKey → TtlRebuild
  shouldWriteToDisk : ConfigKey → Bool

/-- Modelled from the spec: WriteDataToDiskLocked over all keys (lines
1380-1398): subject to the 15 s cool-down, each manager that should write has
its buffered data flushed to disk (restricted data to the store); written
non-restricted keys are added to onDiskDataConfigs (line 1179). -/
def WriteDataToDiskAllLocked (s : EventStep) (ps : ProcState) : ProcState :=
  if s.now < ps.lastWriteTimeNs + 15 * 1000000000 then ps
  else
    { ps with
      lastWriteTimeNs := s.now
      metricsManagers := ps.metricsManagers.map (fun kv =>
        if ¬ s.shouldWriteToDisk kv.1 then kv
        else if kv.2.hasRestrictedMetricsDelegate then
          (kv.1, kv.2.flushRestrictedData)
        else (kv.1, { kv.2 with byteSize := 0 }))
      onDiskDataConfigs := ps.onDiskDataConfigs ++
        (ps.metricsManagers.filterMap (fun kv =>
          if s.shouldWriteToDisk kv.1 ∧ ¬ kv.2.hasRestrictedMetricsDelegate ∧
              kv.1 ∉ ps.onDiskDataConfigs then some kv.1 else none)) }

/-- StatsLogProcessor::resetIfConfigTtlExpiredLocked (lines 837-849): when any
config's ttl expired, write data to disk and rebuild the expired configs from
disk; the rebuild outcome per key comes from the step's oracle. -/
def resetIfConfigTtlExpiredLocked (s : EventStep) (ps : ProcState) : ProcState :=
  if ps.metricsManagers.any (fun kv => s.ttlExpired kv.1) then
    let ps1 := WriteDataToDiskAllLocked s ps
    { ps1 with metricsManagers :=
        (ps1.metricsManagers.filterMap (fun kv =>
          if s.ttlExpired kv.1 then
            match s.rebuiltMgr kv.1 with
            | .rebuilt m => some (kv.1, m)
            | .readFailed => some kv
            | .invalid => none
          else some kv)) }
  else ps

/-- The accumulator threaded through the manager loop of OnLogEvent
(lines 467-498). -/
structure LoopSt where
  lastBroadcastTimes : List (ConfigKey × Int)
  lastByteSizeTimes : List (ConfigKey × Int)
  onDiskDataConfigs : List ConfigKey
  uidsChanged : List Int
  activeConfigsPerUid : List (Int × List Int)
deriving DecidableEq, Repr

/-- One visited manager's processing inside the loop of OnLogEvent (lines
475-497): the manager handles the event (its new byteSize/isActive supplied by
the step's oracle), active configs and activation changes are recorded, then
flushIfNecessaryLocked runs. -/
def procOneManager (P : Params) (s : EventStep) (key : ConfigKey) (m : MMgr)
    (t : LoopSt) : MMgr × List Emit × LoopSt :=
  let uid := key.uid
  let configId := key.id
  let isPrevActive := m.isActive
  let m1 := { m with byteSize := s.newByteSize key, isActive := s.newActive key }
  let isCurActive := m1.isActive
  let t1 := if isCurActive then
      { t with activeConfigsPerUid :=
          match alookup t.activeConfigsPerUid uid with
          | some l => aset t.activeConfigsPerUid uid (l ++ [configId])
          | none => t.activeConfigsPerUid ++ [(uid, [configId])] }
    else t
  let changed : Bool := decide (isPrevActive ≠ isCurActive)
  let t2 := if changed then
      { t1 with uidsChanged := if uid ∈ t1.uidsChanged then t1.uidsChanged
          else t1.uidsChanged ++ [uid] }
    else t1
  let statusEmits : List Emit := if changed then
      [.noteActiveStatusChanged key isCurActive] else []
  let fr := flushIfNecessaryLocked P s.now key m1 (s.broadcastOk key)
      t2.lastBroadcastTimes t2.lastByteSizeTimes t2.onDiskDataConfigs
  (fr.mgr, .mgrInvoked key :: (statusEmits ++ fr.emits),
    { t2 with
      lastBroadcastTimes := fr.lastBroadcastTimes
      lastByteSizeTimes := fr.lastByteSizeTimes
      onDiskDataConfigs := fr.onDiskDataConfigs })

/-- The manager loop of OnLogEvent (lines 471-498): restricted events skip
managers without a restricted delegate; every other manager is processed by
procOneManager in map order. Returns the updated managers in order, the
emitted effects, and the final bookkeeping. -/
def managerLoopGo (P : Params) (s : EventStep) (ev : LogEvent) :
    List (ConfigKey × MMgr) → LoopSt → (List (ConfigKey × MMgr) × List Emit × LoopSt)
  | [], t => ([], [], t)
  | (key, m) :: rest, t =>
    if ev.isRestricted ∧ ¬ m.hasRestrictedMetricsDelegate then
      let r := managerLoopGo P s ev rest t
      ((key, m) :: r.1, r.2.1, r.2.2)
    else
      let pm := procOneManager P s key m t
      let r := managerLoopGo P s ev rest pm.2.2
      ((key, pm.1) :: r.1, pm.2.1 ++ r.2.1, r.2.2)

/-- The activation-broadcast loop of OnLogEvent (lines 500-525). A uid inside
the rate-limit window records a guardrail hit and returns from OnLogEvent,
abandoning the remaining uids, exactly as the source's early return does. -/
def activationLoopGo (P : Params) (s : EventStep)
    (activeConfigsPerUid : List (Int × List Int)) :
    List Int → List (Int × Int) → (List (Int × Int) × List Emit)
  | [], lat => (lat, [])
  | uid :: rest, lat =>
    let blocked : Bool :=
      match alookup lat uid with
      | some t => decide (s.now - t < P.kMinActivationBroadcastPeriodNs)
      | none => false
    if blocked then (lat, [.activationGuardrailHit uid])
    else
      let cfgs := (alookup activeConfigsPerUid uid).getD []
      if s.activationOk uid then
        let r := activationLoopGo P s activeConfigsPerUid rest (aset lat uid s.now)
        (r.1, .activationSent uid cfgs :: r.2)
      else
        let r := activationLoopGo P s activeConfigsPerUid rest lat
        (r.1, r.2)

/-- The hard-coded handler dispatch at the top of OnLogEvent (lines 407-417):
binary-push and watchdog-rollback fixups, threading the event and the train
store. -/
def handledEvent (s : EventStep) (d : Disk) : LogEvent × Disk :=
  let r1 := if s.ev.tagId = BINARY_PUSH_STATE_CHANGED then
      onBinaryPushStateChangedEventLocked d s.hasDump s.hasUsage s.ev
    else (s.ev, d)
  if s.ev.tagId = WATCHDOG_ROLLBACK_OCCURRED then
    onWatchdogRollbackOccurredLocked r1.2 s.hasDump s.hasUsage r1.1
  else r1

/-- The event as seen by the manager loop: after the hard-coded handlers and
the isolated-uid normalization (lines 424-431). -/
def dispatchedEvent (s : EventStep) (d : Disk) : LogEvent :=
  if s.ev.tagId = ISOLATED_UID_CHANGED then (handledEvent s d).1
  else mapIsolatedUidToHostUidIfNecessaryLocked s.hostUid (handledEvent s d).1

/-- StatsLogProcessor::OnLogEvent (lines 394-526), with the anomaly-alarm
check, puller-cache clearing and restricted-data/ttl/db-guardrail periodic
maintenance omitted: they act only on state outside this model (a separate
lock and external singletons) and emit nothing observed here. -/
def OnLogEvent (P : Params) (s : EventStep) (ps : ProcState) (d : Disk) :
    ProcState × Disk × List Emit :=
  if ¬ s.ev.isValid then (ps, d, [.noteAtomError s.ev.tagId])
  else
    let hd := handledEvent s d
    let ps1 := resetIfConfigTtlExpiredLocked s ps
    let ev3 := dispatchedEvent s d
    if ps1.metricsManagers = [] then (ps1, hd.2, [])
    else if ¬ validateAppBreadcrumbEvent s.hostUid ev3 then (ps1, hd.2, [])
    else
      let lr := managerLoopGo P s ev3 ps1.metricsManagers
        ⟨ps1.lastBroadcastTimes, ps1.lastByteSizeTimes, ps1.onDiskDataConfigs,
          [], []⟩
      let ar := activationLoopGo P s lr.2.2.activeConfigsPerUid
        lr.2.2.uidsChanged ps1.lastActivationBroadcastTimes
      (⟨lr.1, lr.2.2.lastBroadcastTimes, ar.1, lr.2.2.lastByteSizeTimes,
        lr.2.2.onDiskDataConfigs, ps1.lastWriteTimeNs⟩, hd.2, lr.2.1 ++ ar.2)

/-! MultiConditionTrigger (utils/MultiConditionTrigger.cpp). The returned Bool
records whether the trigger function was dispatched (the detached executor
thread spawned) by that operation. -/

structure MultiConditionTrigger where
  remainingConditionNames : List String
  completed : Bool
deriving DecidableEq, Repr

/-- The constructor (lines 30-39): remaining names start as the given condition
set (a std::set, modelled by dedup), completed iff it is empty, and the trigger
is dispatched immediately when it is. -/
def mkTrigger (conditionNames : List String) : MultiConditionTrigger × Bool :=
  let r := conditionNames.dedup
  ({ remainingConditionNames := r, completed := r.isEmpty }, r.isEmpty)

/-- MultiConditionTrigger::markComplete (lines 41-56). -/
def MultiConditionTrigger.markComplete (m : MultiConditionTrigger)
    (conditionName : String) : MultiConditionTrigger × Bool :=
  if m.completed then (m, false)
  else
    let r := m.remainingConditionNames.erase conditionName
    ({ remainingConditionNames := r, completed := r.isEmpty }, r.isEmpty)

def runTriggerCalls (m : MultiConditionTrigger) :
    List String → MultiConditionTrigger × Nat
  | [] => (m, 0)
  | n :: rest =>
    let s := m.markComplete n
    let r := runTriggerCalls s.1 rest
    (r.1, (if s.2 then 1 else 0) + r.2)

/-- A trigger constructed from conditionNames, then driven through the calls;
the Nat counts every dispatch of the trigger function over the lifetime. -/
def runTrigger (conditionNames : List String) (calls : List String) :
    MultiConditionTrigger × Nat :=
  let s := mkTrigger conditionNames
  let r := runTriggerCalls s.1 calls
  (r.1, (if s.2 then 1 else 0) + r.2)

def witnessDiskC6 : Disk :=
  writeTrainInfo (fun _ => none)
    { trainName := "X", trainVersionCode := 7, requiresStaging := false,
      rollbackEnabled := false, requiresLowLatencyMonitor := false,
      status := 0, experimentIds := [100, 101] }

/-- Concrete objects used by witnesses and counterexamples: a single
configuration whose manager holds at most 1000 bytes. -/
def cxP : Params :=
  { kMinByteSizeCheckPeriodNs := 10, kMinBroadcastPeriodNs := 10,
    kMinActivationBroadcastPeriodNs := 10,
    kBytesPerRestrictedConfigTriggerFlush := 100, isAtLeastU := false }

def cxKey : ConfigKey := { uid := 1, id := 1 }

def cxMgr : MMgr :=
  { byteSize := 0, maxMetricsBytes := 1000, triggerGetDataBytes := 2000,
    hasRestrictedMetricsDelegate := false, restrictedMetricsDelegate := "",
    metricIds := [], delegateValidatedUids := [], isActive := true }

def cxEv : LogEvent :=
  { tagId := 1, uid := 0, pid := 0, isValid := true, isRestricted := false,
    values := [], uidFieldIndices := [] }

/-- An OnLogEvent input at the given clock whose manager-loop oracle reports
the given new byte size for every manager. -/
def cxStep (tm : Int) (bytes : Nat) : EventStep :=
  { ev := cxEv, now := tm, hasDump := true, hasUsage := true,
    hostUid := fun u => u, newByteSize := fun _ => bytes,
    newActive := fun _ => true, broadcastOk := fun _ => false,
    activationOk := fun _ => false, ttlExpired := fun _ => false,
    rebuiltMgr := fun _ => .readFailed, shouldWriteToDisk := fun _ => false }

def emptyDisk : Disk := fun _ => none

/-- A valid binary-push event delivered by a caller without the DUMP
permission. -/
def cxStepNoPerm : EventStep :=
  { cxStep 0 500 with
    ev := { cxEv with tagId := BINARY_PUSH_STATE_CHANGED }
    hasDump := false }

def cxDisk : Disk :=
  writeTrainInfo emptyDisk
    { trainName := "X", trainVersionCode := 7, requiresStaging := false,
      rollbackEnabled := false, requiresLowLatencyMonitor := false,
      status := 0, experimentIds := [100] }

/-- A valid APP_BREADCRUMB_REPORTED event: fields (uid, label, state) with the
uid field matching the caller. -/
def cxBreadcrumbStep (claimedUid state : Int) : EventStep :=
  { cxStep 0 500 with
    ev := { cxEv with
      tagId := APP_BREADCRUMB_REPORTED
      uid := 5
      values := [.longV claimedUid, .longV 7, .longV state] } }

/-- A callback invocation on the caller's IStatsQueryCallback. -/
inductive QCall
  | sendFailure (msg : String)
  | sendResults (queryData : List String) (columnNames : List String)
      (columnTypes : List Int) (rowCount : Nat)
deriving DecidableEq, Repr

/-- Modelled from the spec: the outcome of dbutils::query (the external sqlite
layer): ok with rows/columnTypes/columnNames, or an error string. -/
structure DbResult where
  ok : Bool
  rows : List (List String)
  columnTypes : List Int
  columnNames : List String
  err : String
deriving DecidableEq, Repr

/-- StatsLogProcessor::getRestrictedConfigKeysToQueryLocked (lines 1011-1042):
matched keys are the present (uid, configId) keys; keys whose manager rejects
the calling uid as restricted-metrics delegate are excluded; the error string
reports which stage emptied the result. -/
def getRestrictedConfigKeysToQueryLocked (managers : List (ConfigKey × MMgr))
    (callingUid : Int) (configId : Int) (configPackageUids : List Int) :
    List ConfigKey × String :=
  let matched := configPackageUids.dedup.filterMap (fun uid =>
    if (alookup managers ⟨uid, configId⟩).isSome then
      some (⟨uid, configId⟩ : ConfigKey) else none)
  let result := matched.filter (fun ck =>
    match alookup managers ck with
    | some m => decide (callingUid ∈ m.delegateValidatedUids)
    | none => true)
  let err := if matched = [] then "No configs found matching the config key"
    else if result = [] then "No matching configs for restricted metrics delegate"
    else ""
  (result, err)

/-- StatsLogProcessor::querySql (lines 912-1009): the sequence of callback
invocations produced by one call. configPackageUids stands for the uid set
derived from the config package (sAidToUidMapping or UidMap, both external);
dbVersion and the query outcome come from the external sqlite layer. -/
def querySql (P : Params) (managers : List (ConfigKey × MMgr)) (dbVersion : Int)
    (db : DbResult) (minSqlClientVersion : Int) (callingUid : Int)
    (configId : Int) (configPackageUids : List Int) : List QCall :=
  if ¬ P.isAtLeastU then []
  else if minSqlClientVersion > dbVersion then
    [.sendFailure ("Unsupported sqlite version. Installed Version: " ++
      toString dbVersion ++ ", Requested Version: " ++
      toString minSqlClientVersion ++ ".")]
  else
    let kq := getRestrictedConfigKeysToQueryLocked managers callingUid configId
      configPackageUids
    if kq.1 = [] then [.sendFailure kq.2]
    else if kq.1.length > 1 then [.sendFailure "Ambiguous ConfigKey"]
    else if ¬ db.ok then
      [.sendFailure ("failed to query db " ++ db.err ++ ":")]
    else
      let acc : List QCall := if db.columnNames.length ≠ db.columnTypes.length
        then [.sendFailure "Inconsistent row sizes"] else []
      if db.rows.any (fun r => decide (r.length ≠ db.columnNames.length)) then
        acc ++ [.sendFailure "Inconsistent row sizes"]
      else
        acc ++ [.sendResults db.rows.flatten db.columnNames db.columnTypes
          db.rows.length]

/-- All the checks of querySql pass and sendResults is reached. -/
def querySqlSucceeds (P : Params) (managers : List (ConfigKey × MMgr))
    (dbVersion : Int) (db : DbResult) (minSqlClientVersion : Int)
    (callingUid : Int) (configId : Int) (configPackageUids : List Int) : Bool :=
  P.isAtLeastU && decide (minSqlClientVersion ≤ dbVersion) &&
    decide ((getRestrictedConfigKeysToQueryLocked managers callingUid configId
      configPackageUids).1.length = 1) && db.ok &&
    !(db.rows.any (fun r => decide (r.length ≠ db.columnNames.length)))

def QCall.isFailureCall : QCall → Bool
  | .sendFailure _ => true
  | _ => false

def QCall.isResultsCall : QCall → Bool
  | .sendResults _ _ _ _ => true
  | _ => false

/-- The part of StatsdConfig consulted by OnConfigUpdatedLocked. -/
structure StatsdConfig where
  hasRestrictedMetricsDelegatePackageName : Bool
deriving DecidableEq, Repr

/-- Modelled from the spec: the externally determined outcomes of constructing
a MetricsManager from (key, config) and of updating one in place
(MetricsManager is not in src/): the freshly constructed manager with its
isConfigValid(), and the in-place updated manager with updateConfig's result. -/
structure ConfigBuild where
  newMgr : MMgr
  newValid : Bool
  updMgr : MMgr
  updValid : Bool
deriving DecidableEq, Repr

structure ConfigUpdateResult where
  managers : List (ConfigKey × MMgr)
  emits : List Emit
  configValid : Bool
deriving DecidableEq, Repr

/-- Whether OnConfigUpdatedLocked builds a fresh MetricsManager (line 574:
not a modular update, counting the forced downgrade when the restricted
delegate flag flips on a U+ device at lines 560-565, or a new key). -/
def configUpdateFreshBranch (P : Params) (key : ConfigKey)
    (config : StatsdConfig) (modularUpdateIn : Bool)
    (managers : List (ConfigKey × MMgr)) : Bool :=
  match alookup managers key with
  | none => true
  | some old =>
    !(if P.isAtLeastU ∧ old.hasRestrictedMetricsDelegate ≠
          config.hasRestrictedMetricsDelegatePackageName
      then false else modularUpdateIn)

/-- StatsLogProcessor::OnConfigUpdatedLocked (lines 555-634), restricted to
the manager map and the restricted-metrics broadcasts (uid-map registration
and the sqlite side effects are external). The fresh branch inserts the new
manager only when it validated, emitting the restricted broadcast for a new
restricted config or the empty one when a restricted config became
unrestricted; the modular branch updates in place; an invalid config erases
the key, emitting the empty restricted broadcast when the erased manager had
a delegate on a U+ device. -/
def OnConfigUpdatedLocked (P : Params) (key : ConfigKey) (config : StatsdConfig)
    (modularUpdateIn : Bool) (cb : ConfigBuild)
    (managers : List (ConfigKey × MMgr)) : ConfigUpdateResult :=
  if configUpdateFreshBranch P key config modularUpdateIn managers then
    if cb.newValid then
      let em :=
        if cb.newMgr.hasRestrictedMetricsDelegate then
          [Emit.restrictedMetricsBroadcast key
            cb.newMgr.restrictedMetricsDelegate cb.newMgr.metricIds]
        else
          match alookup managers key with
          | some old =>
            if old.hasRestrictedMetricsDelegate then
              [Emit.restrictedMetricsBroadcast key
                old.restrictedMetricsDelegate []]
            else []
          | none => []
      ⟨aset managers key cb.newMgr, em, true⟩
    else
      let em :=
        match alookup managers key with
        | some old =>
          if P.isAtLeastU ∧ old.hasRestrictedMetricsDelegate then
            [Emit.restrictedMetricsBroadcast key
              old.restrictedMetricsDelegate []]
          else []
        | none => []
      ⟨aerase managers key, em, false⟩
  else
    let managers1 := aset managers key cb.updMgr
    if cb.updValid then
      let em := if cb.updMgr.hasRestrictedMetricsDelegate then
          [Emit.restrictedMetricsBroadcast key
            cb.updMgr.restrictedMetricsDelegate cb.updMgr.metricIds]
        else []
      ⟨managers1, em, true⟩
    else
      let em := if P.isAtLeastU ∧ cb.updMgr.hasRestrictedMetricsDelegate then
          [Emit.restrictedMetricsBroadcast key
            cb.updMgr.restrictedMetricsDelegate []]
        else []
      ⟨aerase managers1 key, em, false⟩

/-- A U+ parameter set (isAtLeastU true) for exercising the restricted paths
of the config-update model. -/
def cuP : Params :=
  { kMinByteSizeCheckPeriodNs := 10, kMinBroadcastPeriodNs := 10,
    kMinActivationBroadcastPeriodNs := 10,
    kBytesPerRestrictedConfigTriggerFlush := 100, isAtLeastU := true }

/-- A previously installed restricted manager. -/
def cuOldMgr : MMgr :=
  { cxMgr with
    hasRestrictedMetricsDelegate := true
    restrictedMetricsDelegate := "d" }

/-- A config build whose fresh construction and in-place update both
report an invalid config. -/
def cuBuild : ConfigBuild :=
  { newMgr := cxMgr, newValid := false, updMgr := cxMgr, updValid := false }

/-- One locked call to StatsLogProcessor::onDumpReport (lines 657-715),
restricted to the state modelled here: for a present manager with a
restricted delegate the call returns early; for a present non-restricted
manager the key's last-broadcast time is erased (line 691, deliberately
allowing another broadcast within the rate-limit period); the report
serialization itself is external output. -/
def onDumpReport (key : ConfigKey) (ps : ProcState) : ProcState :=
  match alookup ps.metricsManagers key with
  | none => ps
  | some m =>
    if m.hasRestrictedMetricsDelegate then ps
    else { ps with lastBroadcastTimes := aerase ps.lastBroadcastTimes key }

/-- A step of the processor interface observed by the temporal claims:
a log event or a dump-report request. -/
inductive PStep where
  | logEvent (e : EventStep)
  | dumpReport (key : ConfigKey)

def PStep.isDumpFor (key : ConfigKey) : PStep → Bool
  | .dumpReport k => k = key
  | _ => false

/-- Run a trace of steps from a processor state, collecting every emitted
effect tagged with the clock at which it was emitted. -/
def runTrace (P : Params) : List PStep → ProcState → Disk →
    ProcState × Disk × List (Int × Emit)
  | [], ps, d => (ps, d, [])
  | .logEvent e :: rest, ps, d =>
    let r1 := OnLogEvent P e ps d
    let r2 := runTrace P rest r1.1 r1.2.1
    (r2.1, r2.2.1, r1.2.2.map (fun em => (e.now, em)) ++ r2.2.2)
  | .dumpReport key :: rest, ps, d =>
    runTrace P rest (onDumpReport key ps) d

def isBroadcastFor (key : ConfigKey) : Emit → Bool
  | .broadcastSent k => k = key
  | _ => false

def isActivationFor (uid : Int) : Emit → Bool
  | .activationSent u _ => u = uid
  | _ => false

/-- The clocks at which an effect matching the predicate was emitted. -/
def timesOf (p : Emit → Bool) (l : List (Int × Emit)) : List Int :=
  l.filterMap (fun te => if p te.2 then some te.1 else none)

/-- The clocks of the successful data-ready broadcasts for a key. -/
def broadcastTimesFor (key : ConfigKey) (l : List (Int × Emit)) : List Int :=
  timesOf (isBroadcastFor key) l

/-- The clocks of the successful activation broadcasts to a uid. -/
def activationTimesFor (uid : Int) (l : List (Int × Emit)) : List Int :=
  timesOf (isActivationFor uid) l

/-- Parameters with a short byte-size-check period and a long broadcast
period, separating the two rate limits. -/
def c8P : Params :=
  { kMinByteSizeCheckPeriodNs := 1, kMinBroadcastPeriodNs := 10,
    kMinActivationBroadcastPeriodNs := 10,
    kBytesPerRestrictedConfigTriggerFlush := 100, isAtLeastU := false }

/-- A manager whose trigger threshold is below the byte sizes reported by the
c8 steps, so every due check requests a data-ready broadcast. -/
def c8Mgr : MMgr :=
  { byteSize := 0, maxMetricsBytes := 1000, triggerGetDataBytes := 100,
    hasRestrictedMetricsDelegate := false, restrictedMetricsDelegate := "",
    metricIds := [], delegateValidatedUids := [], isActive := true }

/-- An OnLogEvent input at the given clock whose manager-loop oracle reports
500 buffered bytes and whose broadcast callbacks succeed. -/
def c8Step (tm : Int) : EventStep :=
  { ev := cxEv, now := tm, hasDump := true, hasUsage := true,
    hostUid := fun u => u, newByteSize := fun _ => 500,
    newActive := fun _ => true, broadcastOk := fun _ => true,
    activationOk := fun _ => true, ttlExpired := fun _ => false,
    rebuiltMgr := fun _ => .rebuilt c8Mgr, shouldWriteToDisk := fun _ => false }

/-!
Theorems. Every claim's theorem, with its witness or counterexample, follows
the definitions above.
-/

theorem writeTrainInfo_idem (d : Disk) (ti : InstallTrainInfo) :
    writeTrainInfo (writeTrainInfo d ti) ti = writeTrainInfo d ti := by
  funext n
  unfold writeTrainInfo
  by_cases h : n = ti.trainName <;> simp [h]

theorem head_of_head? {α : Type} {l : List α} {a : α} (h : l.head? = some a) :
    ∃ t, l = a :: t := by
  cases l with
  | nil => simp at h
  | cons b t => simp at h; exact ⟨t, by rw [h]⟩

theorem watchdog_idem_core (d : Disk) (ty : Int) (pkg : String)
    (ti : InstallTrainInfo) (f off : Int) (tl : List Int)
    (hp : ¬ pkg = "") (hd : d pkg = some ti)
    (hh : ti.experimentIds.head? = some f) (htl : ti.experimentIds = f :: tl)
    (hoff : (ty = ROLLBACK_TYPE_ROLLBACK_INITIATE ∧ off = 4) ∨
      (¬ ty = ROLLBACK_TYPE_ROLLBACK_INITIATE ∧
        ty = ROLLBACK_TYPE_ROLLBACK_SUCCESS ∧ off = 5)) :
    processWatchdogRollbackOccurred (processWatchdogRollbackOccurred d ty pkg).2 ty pkg =
      processWatchdogRollbackOccurred d ty pkg := by
  have key : ∀ (dd : Disk) (tj : InstallTrainInfo), dd pkg = some tj →
      tj.experimentIds.head? = some f →
      processWatchdogRollbackOccurred dd ty pkg =
        ((if (f + off) ∈ tj.experimentIds then tj.experimentIds
          else tj.experimentIds ++ [f + off]),
         writeTrainInfo dd { tj with experimentIds :=
           (if (f + off) ∈ tj.experimentIds then tj.experimentIds
            else tj.experimentIds ++ [f + off]) }) := by
    intro dd tj hdd hhj
    rcases hoff with ⟨h1, h2⟩ | ⟨h1, h2, h3⟩
    · subst h2
      by_cases hmem : (f + 4) ∈ tj.experimentIds <;>
        simp [processWatchdogRollbackOccurred, hp, readTrainInfo, hdd, hhj, h1, hmem]
    · subst h3
      by_cases hmem : (f + 5) ∈ tj.experimentIds <;>
        simp [processWatchdogRollbackOccurred, hp, readTrainInfo, hdd, hhj, h1, h2,
          hmem, ROLLBACK_TYPE_ROLLBACK_INITIATE, ROLLBACK_TYPE_ROLLBACK_SUCCESS]
  have hidsh : (if (f + off) ∈ ti.experimentIds then ti.experimentIds
      else ti.experimentIds ++ [f + off]).head? = some f := by
    rw [htl]
    split <;> rfl
  have hidsm : (f + off) ∈ (if (f + off) ∈ ti.experimentIds then ti.experimentIds
      else ti.experimentIds ++ [f + off]) := by
    by_cases hmem : (f + off) ∈ ti.experimentIds <;> simp [hmem]
  rw [key d ti hd hh]
  generalize hg : (if (f + off) ∈ ti.experimentIds then ti.experimentIds
      else ti.experimentIds ++ [f + off]) = ids at hidsh hidsm ⊢
  by_cases hpn : pkg = ti.trainName
  · have hread : (writeTrainInfo d { ti with experimentIds := ids }) pkg =
        some { ti with experimentIds := ids } := by
      simp [writeTrainInfo, hpn]
    rw [key _ _ hread hidsh]
    show ((if (f + off) ∈ ids then ids else ids ++ [f + off]),
        writeTrainInfo (writeTrainInfo d { ti with experimentIds := ids })
          { ti with experimentIds :=
            (if (f + off) ∈ ids then ids else ids ++ [f + off]) }) = _
    rw [if_pos hidsm]
    exact congrArg (Prod.mk ids) (writeTrainInfo_idem d { ti with experimentIds := ids })
  · have hread : (writeTrainInfo d { ti with experimentIds := ids }) pkg = some ti := by
      simp [writeTrainInfo, hpn, hd]
    rw [key _ ti hread hh, hg]
    exact congrArg (Prod.mk ids) (writeTrainInfo_idem d { ti with experimentIds := ids })

/-- C5: processWatchdogRollbackOccurred returns the empty list (leaving the
train store untouched) when the package name is empty, and for every rollback
type and package, running it a second time on the store the first run produced
returns the same experiment-id list and the same store. -/
theorem processWatchdogRollbackOccurred_empty_idempotent
    (d : Disk) (ty : Int) (pkg : String) :
    processWatchdogRollbackOccurred d ty "" = ([], d) ∧
    processWatchdogRollbackOccurred
        (processWatchdogRollbackOccurred d ty pkg).2 ty pkg =
      processWatchdogRollbackOccurred d ty pkg := by
  constructor
  · simp [processWatchdogRollbackOccurred]
  · by_cases hp : pkg = ""
    · simp [processWatchdogRollbackOccurred, hp]
    · cases hd : d pkg with
      | none =>
        simp [processWatchdogRollbackOccurred, hp, readTrainInfo, hd]
      | some ti =>
        cases hh : ti.experimentIds.head? with
        | none =>
          simp [processWatchdogRollbackOccurred, hp, readTrainInfo, hd, hh]
        | some f =>
          obtain ⟨tl, htl⟩ := head_of_head? hh
          by_cases hty1 : ty = ROLLBACK_TYPE_ROLLBACK_INITIATE
          · exact watchdog_idem_core d ty pkg ti f 4 tl hp hd hh htl (Or.inl ⟨hty1, rfl⟩)
          · by_cases hty2 : ty = ROLLBACK_TYPE_ROLLBACK_SUCCESS
            · exact watchdog_idem_core d ty pkg ti f 5 tl hp hd hh htl
                (Or.inr ⟨hty1, hty2, rfl⟩)
            · simp [processWatchdogRollbackOccurred, hp, readTrainInfo, hd, hh,
                hty1, hty2]

/-- C6: for a train whose stored experiment-id list is non-empty with first
element f, the hard-coded handlers append exactly the status-derived marker,
each only when not already present: watchdog rollback-initiate appends f+4 and
rollback-success f+5; the binary-push handler, when the incoming event resolves
to the stored list (same train version, no event-supplied ids), appends f+1 on
install-success, f+2 on installer-rollback-initiated, and f+3 on
installer-rollback-success. -/
theorem trainInfo_marker_append
    (d : Disk) (name : String) (tiD : InstallTrainInfo) (f : Int)
    (hne : ¬ name = "")
    (hdisk : d name = some tiD) (hname : tiD.trainName = name)
    (hhead : tiD.experimentIds.head? = some f) :
    ((processWatchdogRollbackOccurred d ROLLBACK_TYPE_ROLLBACK_INITIATE name).1 =
        (if f + 4 ∈ tiD.experimentIds then tiD.experimentIds
         else tiD.experimentIds ++ [f + 4]) ∧
      (processWatchdogRollbackOccurred d ROLLBACK_TYPE_ROLLBACK_INITIATE name).2 name =
        some { tiD with experimentIds :=
          (if f + 4 ∈ tiD.experimentIds then tiD.experimentIds
           else tiD.experimentIds ++ [f + 4]) }) ∧
    ((processWatchdogRollbackOccurred d ROLLBACK_TYPE_ROLLBACK_SUCCESS name).1 =
        (if f + 5 ∈ tiD.experimentIds then tiD.experimentIds
         else tiD.experimentIds ++ [f + 5]) ∧
      (processWatchdogRollbackOccurred d ROLLBACK_TYPE_ROLLBACK_SUCCESS name).2 name =
        some { tiD with experimentIds :=
          (if f + 5 ∈ tiD.experimentIds then tiD.experimentIds
           else tiD.experimentIds ++ [f + 5]) }) ∧
    (∀ (tiIn : InstallTrainInfo) (status off : Int),
      (status, off) ∈ [(STATE_INSTALL_SUCCESS, 1),
        (STATE_INSTALLER_ROLLBACK_INITIATED, 2),
        (STATE_INSTALLER_ROLLBACK_SUCCESS, 3)] →
      tiIn.trainName = name → tiIn.trainVersionCode = tiD.trainVersionCode →
      tiIn.experimentIds = [] → tiIn.status = status →
      (getAndUpdateTrainInfoOnDisk d false tiIn).1.experimentIds =
        (if f + off ∈ tiD.experimentIds then tiD.experimentIds
         else tiD.experimentIds ++ [f + off]) ∧
      (getAndUpdateTrainInfoOnDisk d false tiIn).2 name =
        some (getAndUpdateTrainInfoOnDisk d false tiIn).1) := by
  refine ⟨?_, ?_, ?_⟩
  · constructor
    · by_cases hmem : f + 4 ∈ tiD.experimentIds <;>
        simp [processWatchdogRollbackOccurred, hne, readTrainInfo, hdisk, hhead,
          hmem, ROLLBACK_TYPE_ROLLBACK_INITIATE]
    · by_cases hmem : f + 4 ∈ tiD.experimentIds <;>
        simp [processWatchdogRollbackOccurred, hne, readTrainInfo, hdisk, hhead,
          hmem, ROLLBACK_TYPE_ROLLBACK_INITIATE, writeTrainInfo, hname]
  · constructor
    · by_cases hmem : f + 5 ∈ tiD.experimentIds <;>
        simp [processWatchdogRollbackOccurred, hne, readTrainInfo, hdisk, hhead,
          hmem, ROLLBACK_TYPE_ROLLBACK_INITIATE, ROLLBACK_TYPE_ROLLBACK_SUCCESS]
    · by_cases hmem : f + 5 ∈ tiD.experimentIds <;>
        simp [processWatchdogRollbackOccurred, hne, readTrainInfo, hdisk, hhead,
          hmem, ROLLBACK_TYPE_ROLLBACK_INITIATE, ROLLBACK_TYPE_ROLLBACK_SUCCESS,
          writeTrainInfo, hname]
  · intro tiIn status off hso hn hv he hs
    have hne2 : ¬ tiIn.trainName = "" := by rw [hn]; exact hne
    have hread : readTrainInfo d tiIn.trainName = some tiD := by
      rw [hn]; exact hdisk
    have hresolved :
        (getAndUpdateTrainInfoOnDisk d false tiIn).1.experimentIds =
          applyStatusMarkers tiIn.status tiD.experimentIds ∧
        (getAndUpdateTrainInfoOnDisk d false tiIn).2 name =
          some (getAndUpdateTrainInfoOnDisk d false tiIn).1 := by
      have hdisk2 : readTrainInfo d name = some tiD := hdisk
      by_cases hv1 : tiIn.trainVersionCode = -1
      · have hv2 : tiD.trainVersionCode = -1 := by rw [← hv]; exact hv1
        simp [getAndUpdateTrainInfoOnDisk, hne2, hne, hn, hdisk2, he, hv, hv1,
          hv2, writeTrainInfo]
      · have hv2 : ¬ tiD.trainVersionCode = -1 := by rw [← hv]; exact hv1
        simp [getAndUpdateTrainInfoOnDisk, hne2, hne, hn, hdisk2, he, hv, hv1,
          hv2, writeTrainInfo]
    rcases hresolved with ⟨h1, h2⟩
    refine ⟨?_, h2⟩
    rw [h1, hs]
    simp only [List.mem_cons, List.mem_singleton, List.not_mem_nil, or_false,
      Prod.mk.injEq] at hso
    rcases hso with ⟨hs1, hs2⟩ | ⟨hs1, hs2⟩ | ⟨hs1, hs2⟩ <;> subst hs1 <;> subst hs2
    · simp [applyStatusMarkers, hhead, STATE_INSTALL_SUCCESS]
    · simp [applyStatusMarkers, hhead, STATE_INSTALL_SUCCESS,
        STATE_INSTALLER_ROLLBACK_INITIATED]
    · simp [applyStatusMarkers, hhead, STATE_INSTALL_SUCCESS,
        STATE_INSTALLER_ROLLBACK_INITIATED, STATE_INSTALLER_ROLLBACK_SUCCESS]

theorem trainInfo_marker_append_witness :
    (processWatchdogRollbackOccurred witnessDiskC6
        ROLLBACK_TYPE_ROLLBACK_INITIATE "X").1 = [100, 101, 104] ∧
    (getAndUpdateTrainInfoOnDisk witnessDiskC6 false
        { trainName := "X", trainVersionCode := 7, requiresStaging := false,
          rollbackEnabled := false, requiresLowLatencyMonitor := false,
          status := STATE_INSTALL_SUCCESS,
          experimentIds := [] }).1.experimentIds = [100, 101] := by
  have h := trainInfo_marker_append witnessDiskC6 "X"
    { trainName := "X", trainVersionCode := 7, requiresStaging := false,
      rollbackEnabled := false, requiresLowLatencyMonitor := false,
      status := 0, experimentIds := [100, 101] } 100
    (by decide) (by rfl) rfl rfl
  constructor
  · rw [h.1.1]; decide
  · have h3 := h.2.2
      { trainName := "X", trainVersionCode := 7, requiresStaging := false,
        rollbackEnabled := false, requiresLowLatencyMonitor := false,
        status := STATE_INSTALL_SUCCESS, experimentIds := [] }
      STATE_INSTALL_SUCCESS 1 (by simp) rfl rfl rfl rfl
    rw [h3.1]; decide

theorem markComplete_completed (m : MultiConditionTrigger) (n : String)
    (h : m.completed = true) : m.markComplete n = (m, false) := by
  simp [MultiConditionTrigger.markComplete, h]

theorem runTriggerCalls_completed (calls : List String) :
    ∀ m : MultiConditionTrigger, m.completed = true →
      runTriggerCalls m calls = (m, 0) := by
  induction calls with
  | nil => intro m h; rfl
  | cons n rest ih =>
    intro m h
    simp [runTriggerCalls, markComplete_completed m n h, ih m h]

theorem runTriggerCalls_le_one (calls : List String) :
    ∀ m : MultiConditionTrigger,
      (runTriggerCalls m calls).2 ≤ (if m.completed then 0 else 1) := by
  induction calls with
  | nil => intro m; simp [runTriggerCalls]
  | cons n rest ih =>
    intro m
    by_cases h : m.completed = true
    · simp [runTriggerCalls, markComplete_completed m n h, h,
        runTriggerCalls_completed rest m h]
    · have hm : m.completed = false := by simpa using h
      simp only [runTriggerCalls, MultiConditionTrigger.markComplete, hm,
        Bool.false_eq_true, if_false]
      by_cases he : (m.remainingConditionNames.erase n).isEmpty = true
      · rw [he]
        rw [runTriggerCalls_completed rest
          (⟨m.remainingConditionNames.erase n, true⟩ : MultiConditionTrigger) rfl]
        simp
      · have hef : (m.remainingConditionNames.erase n).isEmpty = false := by
          simpa using he
        rw [hef]
        have h3 := ih (⟨m.remainingConditionNames.erase n, false⟩ : MultiConditionTrigger)
        simp only [if_false] at h3 ⊢
        simpa using h3

theorem runTriggerCalls_inv (calls : List String) :
    ∀ m : MultiConditionTrigger,
      m.completed = m.remainingConditionNames.isEmpty →
      (runTriggerCalls m calls).1.completed =
        (runTriggerCalls m calls).1.remainingConditionNames.isEmpty := by
  induction calls with
  | nil => intro m h; exact h
  | cons n rest ih =>
    intro m h
    by_cases hc : m.completed = true
    · rw [runTriggerCalls_completed (n :: rest) m hc]; exact h
    · have hm : m.completed = false := by simpa using hc
      simp only [runTriggerCalls]
      unfold MultiConditionTrigger.markComplete
      rw [hm]
      simp only [Bool.false_eq_true, if_false]
      exact ih _ rfl

/-- C10: over any lifetime (construction plus any markComplete sequence) the
trigger function is dispatched at most once; it is dispatched at construction
iff the condition set is empty; a markComplete on a completed trigger, or with
a name not in the remaining set, leaves the trigger unchanged and dispatches
nothing; and a markComplete dispatches exactly when it first empties the
remaining set. -/
theorem multiConditionTrigger_spec (conditionNames calls : List String) :
    (runTrigger conditionNames calls).2 ≤ 1 ∧
    ((mkTrigger conditionNames).2 = true ↔ conditionNames = []) ∧
    (∀ n, (runTrigger conditionNames calls).1.completed = true →
      (runTrigger conditionNames calls).1.markComplete n =
        ((runTrigger conditionNames calls).1, false)) ∧
    (∀ n, n ∉ (runTrigger conditionNames calls).1.remainingConditionNames →
      (runTrigger conditionNames calls).1.markComplete n =
        ((runTrigger conditionNames calls).1, false)) ∧
    (∀ n, ((runTrigger conditionNames calls).1.markComplete n).2 = true ↔
      ((runTrigger conditionNames calls).1.remainingConditionNames ≠ [] ∧
       (runTrigger conditionNames calls).1.remainingConditionNames.erase n = [])) := by
  have hinv : (runTrigger conditionNames calls).1.completed =
      (runTrigger conditionNames calls).1.remainingConditionNames.isEmpty := by
    unfold runTrigger
    exact runTriggerCalls_inv calls _ rfl
  refine ⟨?_, ?_, ?_, ?_, ?_⟩
  · unfold runTrigger
    by_cases h : (conditionNames.dedup).isEmpty = true
    · have h0 := runTriggerCalls_completed calls
        (⟨conditionNames.dedup, true⟩ : MultiConditionTrigger) rfl
      simp [mkTrigger, h, h0]
    · have h1 := runTriggerCalls_le_one calls
        (⟨conditionNames.dedup, false⟩ : MultiConditionTrigger)
      have hf : (conditionNames.dedup).isEmpty = false := by simpa using h
      simp only [if_false] at h1
      simp [mkTrigger, hf]
      simpa using h1
  · simp [mkTrigger, List.isEmpty_iff, List.dedup_eq_nil]
  · intro n h
    exact markComplete_completed _ n h
  · intro n h
    by_cases hc : (runTrigger conditionNames calls).1.completed = true
    · exact markComplete_completed _ n hc
    · have hm : (runTrigger conditionNames calls).1.completed = false := by
        simpa using hc
      have hne : (runTrigger conditionNames calls).1.remainingConditionNames.isEmpty
          = false := by rw [← hinv]; exact hm
      have heta : (MultiConditionTrigger.mk
            (runTrigger conditionNames calls).1.remainingConditionNames false) =
          (runTrigger conditionNames calls).1 := by
        rw [← hm]
      unfold MultiConditionTrigger.markComplete
      rw [hm]
      simp only [Bool.false_eq_true, if_false]
      rw [List.erase_of_not_mem h, hne, heta]
  · intro n
    by_cases hc : (runTrigger conditionNames calls).1.completed = true
    · rw [markComplete_completed _ n hc]
      have h1 : (runTrigger conditionNames calls).1.remainingConditionNames = [] := by
        have h2 := hinv
        rw [hc] at h2
        exact List.isEmpty_iff.mp h2.symm
      simp [h1]
    · have hm : (runTrigger conditionNames calls).1.completed = false := by
        simpa using hc
      have hne : (runTrigger conditionNames calls).1.remainingConditionNames ≠ [] := by
        intro h0
        have h2 : (runTrigger conditionNames calls).1.remainingConditionNames.isEmpty
            = true := by rw [h0]; rfl
        rw [← hinv] at h2
        exact hc h2
      unfold MultiConditionTrigger.markComplete
      rw [hm]
      simp only [Bool.false_eq_true, if_false]
      simp [hne, List.isEmpty_iff]

/-- Witness for C10 at a concrete lifetime: two conditions, completed by two
calls with a duplicate and a stray name in between. -/
theorem multiConditionTrigger_spec_witness :
    (runTrigger ["a", "b"] ["a", "a", "zz", "b", "b"]).2 ≤ 1 ∧
    ((runTrigger ["a", "b"] ["a"]).1.markComplete "b").2 = true := by
  constructor
  · exact (multiConditionTrigger_spec ["a", "b"] ["a", "a", "zz", "b", "b"]).1
  · exact ((multiConditionTrigger_spec ["a", "b"] ["a"]).2.2.2.2 "b").mpr
      (by constructor <;> decide)

/-! Association-map lemmas. -/

theorem alookup_aset_self {κ α : Type} [DecidableEq κ] (l : List (κ × α))
    (key : κ) (v : α) : alookup (aset l key v) key = some v := by
  induction l with
  | nil => simp [aset, alookup]
  | cons kv rest ih =>
    by_cases h : kv.1 = key
    · simp [aset, alookup, h]
    · simp [aset, alookup, h, ih]

theorem alookup_aset_ne {κ α : Type} [DecidableEq κ] (l : List (κ × α))
    (key k : κ) (v : α) (h : ¬ key = k) :
    alookup (aset l key v) k = alookup l k := by
  have h4 : ¬ k = key := fun hh => h hh.symm
  induction l with
  | nil => simp [aset, alookup, h, h4]
  | cons kv rest ih =>
    by_cases h2 : kv.1 = key
    · simp [aset, alookup, h2, h, h4]
    · by_cases h3 : kv.1 = k <;> simp [aset, alookup, h2, h3, h, h4, ih]

theorem alookup_aerase_ne {κ α : Type} [DecidableEq κ] (l : List (κ × α))
    (key k : κ) (h : ¬ key = k) : alookup (aerase l key) k = alookup l k := by
  have h4 : ¬ k = key := fun hh => h hh.symm
  induction l with
  | nil => simp [aerase, alookup]
  | cons kv rest ih =>
    by_cases h2 : kv.1 = key
    · have h3 : ¬ kv.1 = k := by rw [h2]; exact h
      simp [aerase, alookup, h2, h3, h, h4]
    · by_cases h3 : kv.1 = k <;> simp [aerase, alookup, h2, h3, h, h4, ih]

/-! flushIfNecessaryLocked lemmas. -/

/-- C4: when the byte-size check actually runs for a key and finds byteSize()
strictly above maxMetricsBytes, flushIfNecessaryLocked drops all of the
manager's buffered data (dropData), records the dropped-data event with the
observed size, and sends no data-ready broadcast for that key in that check
(and leaves the broadcast bookkeeping untouched). -/
theorem flush_drop_on_overflow (P : Params) (now : Int) (key : ConfigKey)
    (m : MMgr) (broadcastOk : Bool) (lbt lbst : List (ConfigKey × Int))
    (odc : List ConfigKey)
    (hdue : byteSizeCheckDue P now lbst key = true)
    (hover : m.maxMetricsBytes < m.byteSize) :
    flushIfNecessaryLocked P now key m broadcastOk lbt lbst odc =
      ⟨m.dropData, lbt, aset lbst key now, odc, [.dataDropped key m.byteSize]⟩ ∧
    Emit.broadcastSent key ∉
      (flushIfNecessaryLocked P now key m broadcastOk lbt lbst odc).emits := by
  have heq : flushIfNecessaryLocked P now key m broadcastOk lbt lbst odc =
      ⟨m.dropData, lbt, aset lbst key now, odc, [.dataDropped key m.byteSize]⟩ := by
    simp [flushIfNecessaryLocked, hdue, hover]
  refine ⟨heq, ?_⟩
  rw [heq]
  simp

/-- Witness for C4: a manager at 1100 bytes against a 1000-byte limit. -/
theorem flush_drop_on_overflow_witness :
    flushIfNecessaryLocked ⟨10, 10, 10, 100, false⟩ 0 ⟨1, 1⟩
        ⟨1100, 1000, 500, false, "", [], [], true⟩ true [] [] [] =
      ⟨⟨0, 1000, 500, false, "", [], [], true⟩, [], [(⟨1, 1⟩, 0)], [],
        [.dataDropped ⟨1, 1⟩ 1100]⟩ ∧
    Emit.broadcastSent ⟨1, 1⟩ ∉
      (flushIfNecessaryLocked ⟨10, 10, 10, 100, false⟩ 0 ⟨1, 1⟩
        ⟨1100, 1000, 500, false, "", [], [], true⟩ true [] [] []).emits := by
  have h := flush_drop_on_overflow ⟨10, 10, 10, 100, false⟩ 0 ⟨1, 1⟩
    ⟨1100, 1000, 500, false, "", [], [], true⟩ true [] [] []
    (by decide) (by decide)
  exact ⟨by rw [h.1]; rfl, h.2⟩

theorem flush_byteSize_bound (P : Params) (now : Int) (key : ConfigKey)
    (m : MMgr) (broadcastOk : Bool) (lbt lbst : List (ConfigKey × Int))
    (odc : List ConfigKey)
    (hdue : byteSizeCheckDue P now lbst key = true) :
    (flushIfNecessaryLocked P now key m broadcastOk lbt lbst odc).mgr.byteSize ≤
      (flushIfNecessaryLocked P now key m broadcastOk lbt lbst odc).mgr.maxMetricsBytes := by
  unfold flushIfNecessaryLocked
  rw [hdue]
  by_cases h2 : m.maxMetricsBytes < m.byteSize <;>
    by_cases h3 : m.hasRestrictedMetricsDelegate = true <;>
    by_cases h6 : key ∈ odc <;>
    by_cases h7 : broadcastDue P now lbt key = true <;>
    cases broadcastOk <;>
    by_cases h4 : P.kBytesPerRestrictedConfigTriggerFlush < m.byteSize <;>
    by_cases h5 : m.triggerGetDataBytes < m.byteSize <;>
    simp [h2, h3, h4, h5, h6, h7, MMgr.dropData, MMgr.flushRestrictedData] <;>
    omega

theorem flush_lbst_shape (P : Params) (now : Int) (key : ConfigKey) (m : MMgr)
    (broadcastOk : Bool) (lbt lbst : List (ConfigKey × Int)) (odc : List ConfigKey) :
    (flushIfNecessaryLocked P now key m broadcastOk lbt lbst odc).lastByteSizeTimes
        = lbst ∨
    (flushIfNecessaryLocked P now key m broadcastOk lbt lbst odc).lastByteSizeTimes
        = aset lbst key now := by
  unfold flushIfNecessaryLocked
  by_cases h1 : byteSizeCheckDue P now lbst key = true <;>
    by_cases h2 : m.maxMetricsBytes < m.byteSize <;>
    by_cases h3 : m.hasRestrictedMetricsDelegate = true <;>
    by_cases h6 : key ∈ odc <;>
    by_cases h7 : broadcastDue P now lbt key = true <;>
    cases broadcastOk <;>
    by_cases h4 : P.kBytesPerRestrictedConfigTriggerFlush < m.byteSize <;>
    by_cases h5 : m.triggerGetDataBytes < m.byteSize <;>
    simp [h1, h2, h3, h4, h5, h6, h7]

theorem flush_emits_shape (P : Params) (now : Int) (key : ConfigKey) (m : MMgr)
    (broadcastOk : Bool) (lbt lbst : List (ConfigKey × Int)) (odc : List ConfigKey) :
    (flushIfNecessaryLocked P now key m broadcastOk lbt lbst odc).emits = [] ∨
    (flushIfNecessaryLocked P now key m broadcastOk lbt lbst odc).emits =
      [.dataDropped key m.byteSize] ∨
    (flushIfNecessaryLocked P now key m broadcastOk lbt lbst odc).emits =
      [.broadcastSent key] := by
  unfold flushIfNecessaryLocked
  by_cases h1 : byteSizeCheckDue P now lbst key = true <;>
    by_cases h2 : m.maxMetricsBytes < m.byteSize <;>
    by_cases h3 : m.hasRestrictedMetricsDelegate = true <;>
    by_cases h6 : key ∈ odc <;>
    by_cases h7 : broadcastDue P now lbt key = true <;>
    cases broadcastOk <;>
    by_cases h4 : P.kBytesPerRestrictedConfigTriggerFlush < m.byteSize <;>
    by_cases h5 : m.triggerGetDataBytes < m.byteSize <;>
    simp [h1, h2, h3, h4, h5, h6, h7]

/-- The fields of procOneManager's result that come from the internal flush:
the bookkeeping updates and the shape of the emitted effects. -/
theorem procOneManager_flush (P : Params) (s : EventStep) (key : ConfigKey)
    (m : MMgr) (t : LoopSt) :
    (procOneManager P s key m t).1 =
      (flushIfNecessaryLocked P s.now key
        { m with byteSize := s.newByteSize key, isActive := s.newActive key }
        (s.broadcastOk key) t.lastBroadcastTimes t.lastByteSizeTimes
        t.onDiskDataConfigs).mgr ∧
    (procOneManager P s key m t).2.2.lastBroadcastTimes =
      (flushIfNecessaryLocked P s.now key
        { m with byteSize := s.newByteSize key, isActive := s.newActive key }
        (s.broadcastOk key) t.lastBroadcastTimes t.lastByteSizeTimes
        t.onDiskDataConfigs).lastBroadcastTimes ∧
    (procOneManager P s key m t).2.2.lastByteSizeTimes =
      (flushIfNecessaryLocked P s.now key
        { m with byteSize := s.newByteSize key, isActive := s.newActive key }
        (s.broadcastOk key) t.lastBroadcastTimes t.lastByteSizeTimes
        t.onDiskDataConfigs).lastByteSizeTimes ∧
    (procOneManager P s key m t).2.2.onDiskDataConfigs =
      (flushIfNecessaryLocked P s.now key
        { m with byteSize := s.newByteSize key, isActive := s.newActive key }
        (s.broadcastOk key) t.lastBroadcastTimes t.lastByteSizeTimes
        t.onDiskDataConfigs).onDiskDataConfigs ∧
    ((procOneManager P s key m t).2.1 =
        .mgrInvoked key ::
          (flushIfNecessaryLocked P s.now key
            { m with byteSize := s.newByteSize key, isActive := s.newActive key }
            (s.broadcastOk key) t.lastBroadcastTimes t.lastByteSizeTimes
            t.onDiskDataConfigs).emits ∨
      (procOneManager P s key m t).2.1 =
        .mgrInvoked key :: .noteActiveStatusChanged key (s.newActive key) ::
          (flushIfNecessaryLocked P s.now key
            { m with byteSize := s.newByteSize key, isActive := s.newActive key }
            (s.broadcastOk key) t.lastBroadcastTimes t.lastByteSizeTimes
            t.onDiskDataConfigs).emits) := by
  unfold procOneManager
  by_cases hact : s.newActive key = true <;>
    by_cases hprev : m.isActive = true <;>
      simp [hact, hprev]

theorem byteSizeCheckDue_aset_ne (P : Params) (now : Int)
    (lbst : List (ConfigKey × Int)) (key k : ConfigKey) (v : Int)
    (h : ¬ key = k) :
    byteSizeCheckDue P now (aset lbst key v) k = byteSizeCheckDue P now lbst k := by
  unfold byteSizeCheckDue
  rw [alookup_aset_ne _ _ _ _ h]

theorem mgrInvoked_not_in_flush_emits (P : Params) (now : Int) (key : ConfigKey)
    (m : MMgr) (broadcastOk : Bool) (lbt lbst : List (ConfigKey × Int))
    (odc : List ConfigKey) (k : ConfigKey) :
    Emit.mgrInvoked k ∉
      (flushIfNecessaryLocked P now key m broadcastOk lbt lbst odc).emits := by
  rcases flush_emits_shape P now key m broadcastOk lbt lbst odc with h | h | h <;>
    rw [h] <;> simp

theorem mgrInvoked_in_procOne (P : Params) (s : EventStep) (key : ConfigKey)
    (m : MMgr) (t : LoopSt) (k : ConfigKey)
    (h : Emit.mgrInvoked k ∈ (procOneManager P s key m t).2.1) : k = key := by
  rcases (procOneManager_flush P s key m t).2.2.2.2 with hpm | hpm <;>
    rw [hpm] at h <;> simp at h <;>
    rcases h with h | h
  · exact h
  · exact absurd h (mgrInvoked_not_in_flush_emits P s.now key _ _ _ _ _ k)
  · exact h
  · exact absurd h (mgrInvoked_not_in_flush_emits P s.now key _ _ _ _ _ k)

theorem managerLoopGo_keys (P : Params) (s : EventStep) (ev : LogEvent) :
    ∀ (l : List (ConfigKey × MMgr)) (t : LoopSt),
      (managerLoopGo P s ev l t).1.map Prod.fst = l.map Prod.fst := by
  intro l
  induction l with
  | nil => intro t; rfl
  | cons hd rest ih =>
    intro t
    obtain ⟨key, m⟩ := hd
    by_cases hskip : (ev.isRestricted = true ∧ ¬ m.hasRestrictedMetricsDelegate = true)
    · simp only [managerLoopGo]
      rw [if_pos hskip]
      simp [ih]
    · simp only [managerLoopGo]
      rw [if_neg hskip]
      simp [ih]

theorem mgrInvoked_mem_keys (P : Params) (s : EventStep) (ev : LogEvent) :
    ∀ (l : List (ConfigKey × MMgr)) (t : LoopSt) (k : ConfigKey),
      Emit.mgrInvoked k ∈ (managerLoopGo P s ev l t).2.1 → k ∈ l.map Prod.fst := by
  intro l
  induction l with
  | nil => intro t k h; simp [managerLoopGo] at h
  | cons hd rest ih =>
    intro t k h
    obtain ⟨key, m⟩ := hd
    by_cases hskip : (ev.isRestricted = true ∧ ¬ m.hasRestrictedMetricsDelegate = true)
    · simp only [managerLoopGo] at h
      rw [if_pos hskip] at h
      dsimp only at h
      simp only [List.map_cons, List.mem_cons]
      exact Or.inr (ih t k h)
    · simp only [managerLoopGo] at h
      rw [if_neg hskip] at h
      dsimp only at h
      rw [List.mem_append] at h
      simp only [List.map_cons, List.mem_cons]
      rcases h with h | h
      · exact Or.inl (mgrInvoked_in_procOne P s key m t k h)
      · exact Or.inr (ih _ k h)

theorem managerLoopGo_byteSize_bound (P : Params) (s : EventStep) (ev : LogEvent) :
    ∀ (l : List (ConfigKey × MMgr)) (t : LoopSt),
      (l.map Prod.fst).Nodup →
      ∀ k m2, (k, m2) ∈ (managerLoopGo P s ev l t).1 →
        Emit.mgrInvoked k ∈ (managerLoopGo P s ev l t).2.1 →
        byteSizeCheckDue P s.now t.lastByteSizeTimes k = true →
        m2.byteSize ≤ m2.maxMetricsBytes := by
  intro l
  induction l with
  | nil => intro t hnd k m2 hmem; simp [managerLoopGo] at hmem
  | cons hd rest ih =>
    intro t hnd k m2 hmem hinv hdue
    obtain ⟨key, m⟩ := hd
    simp only [List.map_cons, List.nodup_cons] at hnd
    obtain ⟨hkeyni, hnd2⟩ := hnd
    by_cases hskip : (ev.isRestricted = true ∧ ¬ m.hasRestrictedMetricsDelegate = true)
    · simp only [managerLoopGo] at hmem hinv
      rw [if_pos hskip] at hmem hinv
      dsimp only at hmem hinv
      rw [List.mem_cons] at hmem
      rcases hmem with hmem | hmem
      · rw [Prod.mk.injEq] at hmem
        obtain ⟨hk, hm⟩ := hmem
        subst hk
        exact absurd (mgrInvoked_mem_keys P s ev rest t k hinv) hkeyni
      · exact ih t hnd2 k m2 hmem hinv hdue
    · simp only [managerLoopGo] at hmem hinv
      rw [if_neg hskip] at hmem hinv
      dsimp only at hmem hinv
      rw [List.mem_cons] at hmem
      rcases hmem with hmem | hmem
      · rw [Prod.mk.injEq] at hmem
        obtain ⟨hk, hm⟩ := hmem
        subst hk
        subst hm
        rw [(procOneManager_flush P s k m t).1]
        exact flush_byteSize_bound P s.now k _ (s.broadcastOk k)
          t.lastBroadcastTimes t.lastByteSizeTimes t.onDiskDataConfigs hdue
      · have hkrest : k ∈ rest.map Prod.fst := by
          have h1 := managerLoopGo_keys P s ev rest (procOneManager P s key m t).2.2
          rw [← h1]
          exact List.mem_map_of_mem Prod.fst hmem
        have hkne : ¬ key = k := by
          intro hh
          rw [hh] at hkeyni
          exact hkeyni hkrest
        have hinv2 : Emit.mgrInvoked k ∈
            (managerLoopGo P s ev rest (procOneManager P s key m t).2.2).2.1 := by
          rw [List.mem_append] at hinv
          rcases hinv with hinv | hinv
          · exact absurd (mgrInvoked_in_procOne P s key m t k hinv)
              (fun hh => hkne hh.symm)
          · exact hinv
        have hdue2 : byteSizeCheckDue P s.now
            (procOneManager P s key m t).2.2.lastByteSizeTimes k = true := by
          rw [(procOneManager_flush P s key m t).2.2.1]
          rcases flush_lbst_shape P s.now key
              { m with byteSize := s.newByteSize key, isActive := s.newActive key }
              (s.broadcastOk key) t.lastBroadcastTimes t.lastByteSizeTimes
              t.onDiskDataConfigs with hsh | hsh
          · rw [hsh]; exact hdue
          · rw [hsh, byteSizeCheckDue_aset_ne P s.now t.lastByteSizeTimes key k
              s.now hkne]
            exact hdue
        exact ih (procOneManager P s key m t).2.2 hnd2 k m2 hmem hinv2 hdue2

theorem activation_no_mgrInvoked (P : Params) (s : EventStep)
    (acfg : List (Int × List Int)) :
    ∀ (uids : List Int) (lat : List (Int × Int)) (k : ConfigKey),
      Emit.mgrInvoked k ∉ (activationLoopGo P s acfg uids lat).2 := by
  intro uids
  induction uids with
  | nil => intro lat k h; simp [activationLoopGo] at h
  | cons uid rest ih =>
    intro lat k h
    unfold activationLoopGo at h
    by_cases hb : (match alookup lat uid with
        | some t => decide (s.now - t < P.kMinActivationBroadcastPeriodNs)
        | none => false) = true
    · rw [if_pos hb] at h
      simp at h
    · rw [if_neg hb] at h
      by_cases hok : s.activationOk uid = true
      · rw [if_pos hok] at h
        dsimp only at h
        rw [List.mem_cons] at h
        rcases h with h | h
        · simp at h
        · exact ih _ k h
      · rw [if_neg hok] at h
        dsimp only at h
        exact ih _ k h

theorem ttl_fields (s : EventStep) (ps : ProcState) :
    (resetIfConfigTtlExpiredLocked s ps).lastByteSizeTimes = ps.lastByteSizeTimes ∧
    (resetIfConfigTtlExpiredLocked s ps).lastBroadcastTimes = ps.lastBroadcastTimes ∧
    (resetIfConfigTtlExpiredLocked s ps).lastActivationBroadcastTimes =
      ps.lastActivationBroadcastTimes := by
  unfold resetIfConfigTtlExpiredLocked WriteDataToDiskAllLocked
  split
  · split <;> simp
  · simp

theorem writeAll_keys (s : EventStep) (ps : ProcState) :
    ((WriteDataToDiskAllLocked s ps).metricsManagers).map Prod.fst =
      ps.metricsManagers.map Prod.fst := by
  unfold WriteDataToDiskAllLocked
  split
  · rfl
  · dsimp only
    rw [List.map_map]
    apply List.map_congr_left
    intro kv _
    simp only [Function.comp_apply]
    split_ifs <;> rfl

theorem filterMap_fst_sublist {f : ConfigKey × MMgr → Option (ConfigKey × MMgr)}
    (hf : ∀ kv x, f kv = some x → x.1 = kv.1) :
    ∀ l : List (ConfigKey × MMgr),
      ((l.filterMap f).map Prod.fst).Sublist (l.map Prod.fst) := by
  intro l
  induction l with
  | nil => simp
  | cons kv rest ih =>
    cases hfk : f kv with
    | none =>
      rw [List.filterMap_cons, hfk]
      exact ih.trans (List.sublist_cons_self _ _)
    | some x =>
      rw [List.filterMap_cons, hfk, List.map_cons, List.map_cons, hf kv x hfk]
      exact List.Sublist.cons₂ _ ih

theorem ttl_keys_nodup (s : EventStep) (ps : ProcState)
    (h : (ps.metricsManagers.map Prod.fst).Nodup) :
    (((resetIfConfigTtlExpiredLocked s ps).metricsManagers).map Prod.fst).Nodup := by
  unfold resetIfConfigTtlExpiredLocked
  split
  · dsimp only
    have hsub := filterMap_fst_sublist (f := fun kv =>
        if s.ttlExpired kv.1 then
          match s.rebuiltMgr kv.1 with
          | .rebuilt m => some (kv.1, m)
          | .readFailed => some kv
          | .invalid => none
        else some kv)
      (by
        intro kv x hfx
        dsimp only at hfx
        by_cases he : s.ttlExpired kv.1 = true
        · rw [if_pos he] at hfx
          cases hr : s.rebuiltMgr kv.1 <;> rw [hr] at hfx <;> simp at hfx
          · rw [← hfx]
          · rw [← hfx]
        · rw [if_neg he] at hfx
          simp at hfx
          rw [← hfx])
      (WriteDataToDiskAllLocked s ps).metricsManagers
    rw [writeAll_keys s ps] at hsub
    exact h.sublist hsub
  · exact h

/-- C1 (amended): at every return from OnLogEvent, every manager that
processed the event in that call and whose byte-size check was due (not
suppressed by the kMinByteSizeCheckPeriodNs rate limit) satisfies
byteSize() ≤ maxMetricsBytes; a manager whose check was rate-limited may hold
more than maxMetricsBytes when OnLogEvent returns. -/
theorem OnLogEvent_byteSize_bound (P : Params) (s : EventStep) (ps : ProcState)
    (d : Disk) (hnd : (ps.metricsManagers.map Prod.fst).Nodup)
    (k : ConfigKey) (m2 : MMgr)
    (hmem : (k, m2) ∈ (OnLogEvent P s ps d).1.metricsManagers)
    (hinv : Emit.mgrInvoked k ∈ (OnLogEvent P s ps d).2.2)
    (hdue : byteSizeCheckDue P s.now ps.lastByteSizeTimes k = true) :
    m2.byteSize ≤ m2.maxMetricsBytes := by
  unfold OnLogEvent at hmem hinv
  by_cases hval : ¬ s.ev.isValid = true
  · rw [if_pos hval] at hinv
    simp at hinv
  · rw [if_neg hval] at hmem hinv
    by_cases hemp : (resetIfConfigTtlExpiredLocked s ps).metricsManagers = []
    · rw [if_pos hemp] at hinv
      simp at hinv
    · rw [if_neg hemp] at hmem hinv
      by_cases hbc : ¬ validateAppBreadcrumbEvent s.hostUid (dispatchedEvent s d) = true
      · rw [if_pos hbc] at hinv
        simp at hinv
      · rw [if_neg hbc] at hmem hinv
        dsimp only at hmem hinv
        rw [List.mem_append] at hinv
        have hinv2 : Emit.mgrInvoked k ∈
            (managerLoopGo P s (dispatchedEvent s d)
              (resetIfConfigTtlExpiredLocked s ps).metricsManagers
              ⟨(resetIfConfigTtlExpiredLocked s ps).lastBroadcastTimes,
                (resetIfConfigTtlExpiredLocked s ps).lastByteSizeTimes,
                (resetIfConfigTtlExpiredLocked s ps).onDiskDataConfigs,
                [], []⟩).2.1 := by
          rcases hinv with h | h
          · exact h
          · exact absurd h (activation_no_mgrInvoked P s _ _ _ k)
        have hdue2 : byteSizeCheckDue P s.now
            (resetIfConfigTtlExpiredLocked s ps).lastByteSizeTimes k = true := by
          rw [(ttl_fields s ps).1]
          exact hdue
        exact managerLoopGo_byteSize_bound P s (dispatchedEvent s d)
          (resetIfConfigTtlExpiredLocked s ps).metricsManagers
          ⟨(resetIfConfigTtlExpiredLocked s ps).lastBroadcastTimes,
            (resetIfConfigTtlExpiredLocked s ps).lastByteSizeTimes,
            (resetIfConfigTtlExpiredLocked s ps).onDiskDataConfigs, [], []⟩
          (ttl_keys_nodup s ps hnd) k m2 hmem hinv2 hdue2

/-- Counterexample to C1 as stated: after the first event the byte-size check
records time 0; a second event 5 ns later (inside the 10 ns
kMinByteSizeCheckPeriodNs window) grows the manager to 1100 bytes but the
check is skipped, so OnLogEvent returns with byteSize() = 1100 above
maxMetricsBytes = 1000, and no data was dropped. -/
theorem OnLogEvent_byteSize_bound_cx :
    alookup (OnLogEvent cxP (cxStep 5 1100)
        (OnLogEvent cxP (cxStep 0 500)
          (initialProcState [(cxKey, cxMgr)]) emptyDisk).1
        (OnLogEvent cxP (cxStep 0 500)
          (initialProcState [(cxKey, cxMgr)]) emptyDisk).2.1).1.metricsManagers
      cxKey = some
        { byteSize := 1100, maxMetricsBytes := 1000, triggerGetDataBytes := 2000,
          hasRestrictedMetricsDelegate := false, restrictedMetricsDelegate := "",
          metricIds := [], delegateValidatedUids := [], isActive := true } ∧
    Emit.dataDropped cxKey 1100 ∉
      (OnLogEvent cxP (cxStep 5 1100)
        (OnLogEvent cxP (cxStep 0 500)
          (initialProcState [(cxKey, cxMgr)]) emptyDisk).1
        (OnLogEvent cxP (cxStep 0 500)
          (initialProcState [(cxKey, cxMgr)]) emptyDisk).2.1).2.2 ∧
    (1000 : Nat) < 1100 := by
  refine ⟨?_, ?_, by decide⟩ <;> decide

/-- Witness for the amended C1 at a concrete run: one event at time 0, whose
check is due; the surviving manager satisfies the bound. -/
theorem OnLogEvent_byteSize_bound_witness :
    ({ byteSize := 500, maxMetricsBytes := 1000, triggerGetDataBytes := 2000,
       hasRestrictedMetricsDelegate := false, restrictedMetricsDelegate := "",
       metricIds := [], delegateValidatedUids := [],
       isActive := true } : MMgr).byteSize ≤
      ({ byteSize := 500, maxMetricsBytes := 1000, triggerGetDataBytes := 2000,
         hasRestrictedMetricsDelegate := false, restrictedMetricsDelegate := "",
         metricIds := [], delegateValidatedUids := [],
         isActive := true } : MMgr).maxMetricsBytes :=
  OnLogEvent_byteSize_bound cxP (cxStep 0 500)
    (initialProcState [(cxKey, cxMgr)]) emptyDisk (by decide) cxKey _
    (by decide) (by decide) (by decide)

/-- Every manager visited (not skipped by the restricted-event filter) has its
onLogEvent invocation recorded in the loop's emitted effects. -/
theorem mgrInvoked_mem_of_proc (P : Params) (s : EventStep) (ev : LogEvent) :
    ∀ (l : List (ConfigKey × MMgr)) (t : LoopSt) (k : ConfigKey) (m : MMgr),
      (k, m) ∈ l →
      ¬ (ev.isRestricted = true ∧ ¬ m.hasRestrictedMetricsDelegate = true) →
      Emit.mgrInvoked k ∈ (managerLoopGo P s ev l t).2.1 := by
  intro l
  induction l with
  | nil => intro t k m h; simp at h
  | cons hd rest ih =>
    intro t k m hmem hok
    obtain ⟨key, mh⟩ := hd
    rw [List.mem_cons] at hmem
    by_cases hskip : (ev.isRestricted = true ∧ ¬ mh.hasRestrictedMetricsDelegate = true)
    · simp only [managerLoopGo]
      rw [if_pos hskip]
      dsimp only
      rcases hmem with hmem | hmem
      · rw [Prod.mk.injEq] at hmem
        obtain ⟨hk, hm⟩ := hmem
        subst hk
        subst hm
        exact absurd hskip hok
      · exact ih t k m hmem hok
    · simp only [managerLoopGo]
      rw [if_neg hskip]
      dsimp only
      rw [List.mem_append]
      rcases hmem with hmem | hmem
      · left
        rw [Prod.mk.injEq] at hmem
        obtain ⟨hk, hm⟩ := hmem
        subst hk
        rcases (procOneManager_flush P s k mh t).2.2.2.2 with hpm | hpm <;>
          rw [hpm] <;> simp
      · right
        exact ih _ k m hmem hok

/-- C2 (amended): an unauthorized BINARY_PUSH_STATE_CHANGED or
WATCHDOG_ROLLBACK_OCCURRED event has its privileged fixup skipped: no train
info is read or written (the train store is unchanged and the event is not
patched); but the event is NOT dropped: it is still dispatched to every
metrics manager the dispatch loop visits, like any other event. -/
theorem OnLogEvent_unauth_hardcoded (P : Params) (s : EventStep)
    (ps : ProcState) (d : Disk)
    (htag : s.ev.tagId = BINARY_PUSH_STATE_CHANGED ∨
      s.ev.tagId = WATCHDOG_ROLLBACK_OCCURRED)
    (hperm : (s.hasDump && s.hasUsage) = false) :
    handledEvent s d = (s.ev, d) ∧
    (OnLogEvent P s ps d).2.1 = d ∧
    (∀ k m, s.ev.isValid = true →
      ¬ (resetIfConfigTtlExpiredLocked s ps).metricsManagers = [] →
      validateAppBreadcrumbEvent s.hostUid (dispatchedEvent s d) = true →
      (k, m) ∈ (resetIfConfigTtlExpiredLocked s ps).metricsManagers →
      ¬ ((dispatchedEvent s d).isRestricted = true ∧
          ¬ m.hasRestrictedMetricsDelegate = true) →
      Emit.mgrInvoked k ∈ (OnLogEvent P s ps d).2.2) := by
  have hhe : handledEvent s d = (s.ev, d) := by
    rcases htag with h | h
    · have hne : ¬ s.ev.tagId = WATCHDOG_ROLLBACK_OCCURRED := by
        rw [h]; decide
      simp [handledEvent, h, hne, onBinaryPushStateChangedEventLocked, hperm,
        BINARY_PUSH_STATE_CHANGED, WATCHDOG_ROLLBACK_OCCURRED]
    · by_cases h2 : s.ev.tagId = BINARY_PUSH_STATE_CHANGED
      · rw [h] at h2; exact absurd h2 (by decide)
      · simp [handledEvent, h, h2, onWatchdogRollbackOccurredLocked, hperm,
          BINARY_PUSH_STATE_CHANGED, WATCHDOG_ROLLBACK_OCCURRED]
  refine ⟨hhe, ?_, ?_⟩
  · unfold OnLogEvent
    by_cases hval : ¬ s.ev.isValid = true
    · rw [if_pos hval]
    · rw [if_neg hval]
      dsimp only
      rw [hhe]
      by_cases hemp : (resetIfConfigTtlExpiredLocked s ps).metricsManagers = []
      · rw [if_pos hemp]
      · rw [if_neg hemp]
        by_cases hbc : ¬ validateAppBreadcrumbEvent s.hostUid (dispatchedEvent s d) = true
        · rw [if_pos hbc]
        · rw [if_neg hbc]
  · intro k m hval hemp hbc hmem hok
    unfold OnLogEvent
    rw [if_neg (by rw [hval]; simp : ¬ ¬ s.ev.isValid = true)]
    dsimp only
    rw [if_neg hemp, if_neg (by rw [hbc]; simp : ¬ ¬ validateAppBreadcrumbEvent
      s.hostUid (dispatchedEvent s d) = true)]
    dsimp only
    rw [List.mem_append]
    left
    exact mgrInvoked_mem_of_proc P s (dispatchedEvent s d) _ _ k m hmem hok

/-- Counterexample to C2 as stated: a valid BINARY_PUSH_STATE_CHANGED event
from a caller without the DUMP permission is still delivered to the metrics
manager (its onLogEvent is invoked), although no train info is read or
written. -/
theorem OnLogEvent_unauth_hardcoded_cx :
    cxStepNoPerm.hasDump = false ∧
    cxStepNoPerm.ev.tagId = BINARY_PUSH_STATE_CHANGED ∧
    Emit.mgrInvoked cxKey ∈
      (OnLogEvent cxP cxStepNoPerm (initialProcState [(cxKey, cxMgr)])
        cxDisk).2.2 ∧
    (OnLogEvent cxP cxStepNoPerm (initialProcState [(cxKey, cxMgr)])
        cxDisk).2.1 = cxDisk := by
  refine ⟨by decide, by decide, by decide, by rfl⟩

/-- Witness for the amended C2 at the same concrete input. -/
theorem OnLogEvent_unauth_hardcoded_witness :
    handledEvent cxStepNoPerm cxDisk = (cxStepNoPerm.ev, cxDisk) ∧
    Emit.mgrInvoked cxKey ∈
      (OnLogEvent cxP cxStepNoPerm (initialProcState [(cxKey, cxMgr)])
        cxDisk).2.2 := by
  have h := OnLogEvent_unauth_hardcoded cxP cxStepNoPerm
    (initialProcState [(cxKey, cxMgr)]) cxDisk (Or.inl (by decide)) (by decide)
  exact ⟨h.1, h.2.2 cxKey cxMgr (by decide) (by decide) (by decide) (by decide)
    (by decide)⟩

/-- C7: for a valid APP_BREADCRUMB_REPORTED event reaching the dispatch (with
both positional reads succeeding on the normalized event), validation passes
iff the uid encoded in the event (at field id size()-2) equals the caller's
host-normalized uid or the caller is the statsd principal, and the state (at
field id size()) lies in [0,3]; and the event is forwarded to a visited
metrics manager iff validation passes. -/
theorem OnLogEvent_breadcrumb (P : Params) (s : EventStep) (ps : ProcState)
    (d : Disk) (u stv : Int)
    (htag : s.ev.tagId = APP_BREADCRUMB_REPORTED)
    (hval : s.ev.isValid = true)
    (hemp : ¬ (resetIfConfigTtlExpiredLocked s ps).metricsManagers = [])
    (huid : (dispatchedEvent s d).GetLong (((dispatchedEvent s d).size : Int) - 2)
      = some u)
    (hstate : (dispatchedEvent s d).GetLong ((dispatchedEvent s d).size : Int)
      = some stv) :
    (validateAppBreadcrumbEvent s.hostUid (dispatchedEvent s d) = true ↔
      ((s.hostUid (dispatchedEvent s d).uid = u ∨
        s.hostUid (dispatchedEvent s d).uid = AID_STATSD) ∧
       0 ≤ stv ∧ stv ≤ 3)) ∧
    (∀ k m, (k, m) ∈ (resetIfConfigTtlExpiredLocked s ps).metricsManagers →
      ¬ ((dispatchedEvent s d).isRestricted = true ∧
          ¬ m.hasRestrictedMetricsDelegate = true) →
      (Emit.mgrInvoked k ∈ (OnLogEvent P s ps d).2.2 ↔
        validateAppBreadcrumbEvent s.hostUid (dispatchedEvent s d) = true)) := by
  have htag3 : (dispatchedEvent s d).tagId = APP_BREADCRUMB_REPORTED := by
    have hhe : handledEvent s d = (s.ev, d) := by
      have h1 : ¬ s.ev.tagId = BINARY_PUSH_STATE_CHANGED := by rw [htag]; decide
      have h2 : ¬ s.ev.tagId = WATCHDOG_ROLLBACK_OCCURRED := by rw [htag]; decide
      simp [handledEvent, h1, h2]
    have h3 : ¬ s.ev.tagId = ISOLATED_UID_CHANGED := by rw [htag]; decide
    simp [dispatchedEvent, h3, hhe, mapIsolatedUidToHostUidIfNecessaryLocked, htag,
      APP_BREADCRUMB_REPORTED, ISOLATED_UID_CHANGED]
  have hiff : validateAppBreadcrumbEvent s.hostUid (dispatchedEvent s d) = true ↔
      ((s.hostUid (dispatchedEvent s d).uid = u ∨
        s.hostUid (dispatchedEvent s d).uid = AID_STATSD) ∧
       0 ≤ stv ∧ stv ≤ 3) := by
    unfold validateAppBreadcrumbEvent
    rw [if_pos htag3, huid]
    dsimp only
    by_cases hA : (s.hostUid (dispatchedEvent s d).uid ≠ u ∧
        s.hostUid (dispatchedEvent s d).uid ≠ AID_STATSD)
    · rw [if_pos hA]
      simp only [Bool.false_eq_true, false_iff]
      intro hcon
      rcases hcon.1 with h | h
      · exact hA.1 h
      · exact hA.2 h
    · rw [if_neg hA, hstate]
      dsimp only
      by_cases hB : (stv < 0 ∨ stv > 3)
      · rw [if_pos hB]
        simp only [Bool.false_eq_true, false_iff]
        intro hcon
        omega
      · rw [if_neg hB]
        simp only [true_iff]
        refine ⟨?_, by omega, by omega⟩
        by_cases hu : s.hostUid (dispatchedEvent s d).uid = u
        · exact Or.inl hu
        · right
          by_contra haid
          exact hA ⟨hu, haid⟩
  refine ⟨hiff, ?_⟩
  intro k m hmem hok
  constructor
  · intro hin
    by_contra hbc
    unfold OnLogEvent at hin
    rw [if_neg (by rw [hval]; simp : ¬ ¬ s.ev.isValid = true)] at hin
    dsimp only at hin
    rw [if_neg hemp, if_pos hbc] at hin
    simp at hin
  · intro hvv
    unfold OnLogEvent
    rw [if_neg (by rw [hval]; simp : ¬ ¬ s.ev.isValid = true)]
    dsimp only
    rw [if_neg hemp, if_neg (by rw [hvv]; simp : ¬ ¬ validateAppBreadcrumbEvent
      s.hostUid (dispatchedEvent s d) = true)]
    dsimp only
    rw [List.mem_append]
    left
    exact mgrInvoked_mem_of_proc P s (dispatchedEvent s d) _ _ k m hmem hok

/-- Witness for C7: a breadcrumb event whose embedded uid matches the caller
and whose state is 2 is forwarded; the same event with state 9 is not. -/
theorem OnLogEvent_breadcrumb_witness :
    Emit.mgrInvoked cxKey ∈
      (OnLogEvent cxP (cxBreadcrumbStep 5 2)
        (initialProcState [(cxKey, cxMgr)]) emptyDisk).2.2 ∧
    Emit.mgrInvoked cxKey ∉
      (OnLogEvent cxP (cxBreadcrumbStep 5 9)
        (initialProcState [(cxKey, cxMgr)]) emptyDisk).2.2 := by
  constructor
  · exact ((OnLogEvent_breadcrumb cxP (cxBreadcrumbStep 5 2)
      (initialProcState [(cxKey, cxMgr)]) emptyDisk 5 2 (by decide) (by decide)
      (by decide) (by decide) (by decide)).2 cxKey cxMgr (by decide)
      (by decide)).mpr (by decide)
  · intro hin
    have h9 := ((OnLogEvent_breadcrumb cxP (cxBreadcrumbStep 5 9)
      (initialProcState [(cxKey, cxMgr)]) emptyDisk 5 9 (by decide) (by decide)
      (by decide) (by decide) (by decide)).2 cxKey cxMgr (by decide)
      (by decide)).mp hin
    have h10 := ((OnLogEvent_breadcrumb cxP (cxBreadcrumbStep 5 9)
      (initialProcState [(cxKey, cxMgr)]) emptyDisk 5 9 (by decide) (by decide)
      (by decide) (by decide) (by decide)).1).mp h9
    omega

/-- C3 (amended): aside from the FLAG_DISABLED path, which returns without
invoking the callback at all, and the column-name/column-type length mismatch,
which sends a failure yet continues (also sending the results when every row is
consistent), every failing querySql call invokes sendFailure exactly once with
the textual reason and never sendResults, and sendResults is invoked exactly
once iff every check passes. -/
theorem querySql_callback_contract (P : Params)
    (managers : List (ConfigKey × MMgr)) (dbVersion : Int) (db : DbResult)
    (minV callingUid configId : Int) (uids : List Int) :
    (P.isAtLeastU = false →
      querySql P managers dbVersion db minV callingUid configId uids = []) ∧
    (P.isAtLeastU = true → db.columnNames.length = db.columnTypes.length →
      querySqlSucceeds P managers dbVersion db minV callingUid configId uids
        = false →
      (querySql P managers dbVersion db minV callingUid configId uids).countP
          QCall.isFailureCall = 1 ∧
      (querySql P managers dbVersion db minV callingUid configId uids).countP
          QCall.isResultsCall = 0) ∧
    (P.isAtLeastU = true → db.columnNames.length = db.columnTypes.length →
      querySqlSucceeds P managers dbVersion db minV callingUid configId uids
        = true →
      querySql P managers dbVersion db minV callingUid configId uids =
        [.sendResults db.rows.flatten db.columnNames db.columnTypes
          db.rows.length]) ∧
    (P.isAtLeastU = true → ¬ db.columnNames.length = db.columnTypes.length →
      querySqlSucceeds P managers dbVersion db minV callingUid configId uids
        = true →
      querySql P managers dbVersion db minV callingUid configId uids =
        [.sendFailure "Inconsistent row sizes",
         .sendResults db.rows.flatten db.columnNames db.columnTypes
           db.rows.length]) ∧
    (P.isAtLeastU = true → db.columnNames.length = db.columnTypes.length →
      ((querySql P managers dbVersion db minV callingUid configId
          uids).countP QCall.isResultsCall = 1 ↔
        querySqlSucceeds P managers dbVersion db minV callingUid configId uids
          = true)) := by
  have hflag : P.isAtLeastU = false →
      querySql P managers dbVersion db minV callingUid configId uids = [] := by
    intro hU
    simp [querySql, hU]
  have hpass : P.isAtLeastU = true →
      querySqlSucceeds P managers dbVersion db minV callingUid configId uids
        = true →
      querySql P managers dbVersion db minV callingUid configId uids =
        (if db.columnNames.length ≠ db.columnTypes.length then
          [QCall.sendFailure "Inconsistent row sizes"] else []) ++
        [.sendResults db.rows.flatten db.columnNames db.columnTypes
          db.rows.length] := by
    intro hU hok
    unfold querySqlSucceeds at hok
    simp only [Bool.and_eq_true, Bool.not_eq_true', decide_eq_true_eq] at hok
    obtain ⟨⟨⟨⟨hU2, hver⟩, hlen⟩, hdb⟩, hbad⟩ := hok
    have hver2 : ¬ minV > dbVersion := by omega
    have hkqne : ¬ (getRestrictedConfigKeysToQueryLocked managers callingUid
        configId uids).1 = [] := by
      intro h0
      rw [h0] at hlen
      simp at hlen
    have hlen2 : ¬ (getRestrictedConfigKeysToQueryLocked managers callingUid
        configId uids).1.length > 1 := by omega
    have hbadp : ∀ x ∈ db.rows, x.length = db.columnNames.length := by
      simpa using hbad
    simp [querySql, hU, hver2, hkqne, hlen2, hdb, hbad, hbadp]
    exact hbadp
  have hfail : P.isAtLeastU = true →
      db.columnNames.length = db.columnTypes.length →
      querySqlSucceeds P managers dbVersion db minV callingUid configId uids
        = false →
      (querySql P managers dbVersion db minV callingUid configId uids).countP
          QCall.isFailureCall = 1 ∧
      (querySql P managers dbVersion db minV callingUid configId uids).countP
          QCall.isResultsCall = 0 := by
    intro hU hnm hok
    have hnmne : ¬ db.columnNames.length ≠ db.columnTypes.length := by
      simp [hnm]
    by_cases hver : minV > dbVersion
    · simp [querySql, hU, hver, List.countP_cons, QCall.isFailureCall,
        QCall.isResultsCall]
    · by_cases hkq : (getRestrictedConfigKeysToQueryLocked managers callingUid
          configId uids).1 = []
      · simp [querySql, hU, hver, hkq, List.countP_cons, QCall.isFailureCall,
          QCall.isResultsCall]
      · by_cases hlen : (getRestrictedConfigKeysToQueryLocked managers
            callingUid configId uids).1.length > 1
        · simp [querySql, hU, hver, hkq, hlen, List.countP_cons,
            QCall.isFailureCall, QCall.isResultsCall]
        · by_cases hdb : db.ok = true
          · by_cases hbad : db.rows.any
                (fun r => decide (r.length ≠ db.columnNames.length)) = true
            · have hbad2 : ∃ x ∈ db.rows, ¬ x.length = db.columnNames.length := by
                simpa using hbad
              simp [querySql, hU, hver, hkq, hlen, hdb, hbad2, hnmne,
                List.countP_cons, QCall.isFailureCall, QCall.isResultsCall]
            · exfalso
              have hlen1 : (getRestrictedConfigKeysToQueryLocked managers
                  callingUid configId uids).1.length = 1 := by
                have h0 : (getRestrictedConfigKeysToQueryLocked managers
                    callingUid configId uids).1.length ≠ 0 := by
                  intro h1
                  exact hkq (List.length_eq_zero.mp h1)
                omega
              have hverle : minV ≤ dbVersion := by omega
              have hbadf : (db.rows.any
                  (fun r => decide (r.length ≠ db.columnNames.length)))
                    = false := by
                simpa using hbad
              have hbadp : ∀ x ∈ db.rows,
                  x.length = db.columnNames.length := by
                simpa using hbad
              have hokt : querySqlSucceeds P managers dbVersion db minV
                  callingUid configId uids = true := by
                unfold querySqlSucceeds
                simp [hU, hdb, hverle, hlen1, hbadf, hbadp]
                exact hbadp
              rw [hokt] at hok
              exact absurd hok (by decide)
          · have hdbf : db.ok = false := by simpa using hdb
            simp [querySql, hU, hver, hkq, hlen, hdbf, List.countP_cons,
              QCall.isFailureCall, QCall.isResultsCall]
  refine ⟨hflag, hfail, ?_, ?_, ?_⟩
  · intro hU hnm hok
    have h := hpass hU hok
    rw [h]
    simp [hnm]
  · intro hU hnm hok
    have h := hpass hU hok
    rw [h]
    simp [hnm]
  · intro hU hnm
    constructor
    · intro hcount
      by_contra hok
      have hokf : querySqlSucceeds P managers dbVersion db minV callingUid
          configId uids = false := by simpa using hok
      have h := (hfail hU hnm hokf).2
      rw [h] at hcount
      exact absurd hcount (by decide)
    · intro hok
      have h := hpass hU hok
      rw [h]
      simp [hnm, List.countP_cons, QCall.isResultsCall]

/-- Counterexample to C3 as stated: with the restricted-metrics flag disabled
(a U- device), querySql fails with FLAG_DISABLED but the callback receives no
sendFailure at all (the call only notes the failure in StatsdStats). -/
theorem querySql_flag_disabled_cx :
    querySql cxP [] 0 ⟨true, [], [], [], ""⟩ 0 0 0 [] = [] ∧
    cxP.isAtLeastU = false := by
  exact ⟨rfl, rfl⟩

/-- Witness for the amended C3: one failing call (no matching config key)
sends exactly one failure and no results; one succeeding call sends exactly
the results. -/
theorem querySql_callback_contract_witness :
    (querySql { cxP with isAtLeastU := true } [] 0 ⟨true, [], [], [], ""⟩ 0 0 0
        []).countP QCall.isFailureCall = 1 ∧
    (querySql { cxP with isAtLeastU := true } [] 0 ⟨true, [], [], [], ""⟩ 0 0 0
        []).countP QCall.isResultsCall = 0 ∧
    querySql { cxP with isAtLeastU := true }
        [(cxKey, { cxMgr with delegateValidatedUids := [7] })] 0
        ⟨true, [["a"]], [3], ["c"], ""⟩ 0 7 1 [1] =
      [.sendResults ["a"] ["c"] [3] 1] := by
  refine ⟨?_, ?_, ?_⟩
  · exact ((querySql_callback_contract { cxP with isAtLeastU := true } [] 0
      ⟨true, [], [], [], ""⟩ 0 0 0 []).2.1 rfl rfl (by decide)).1
  · exact ((querySql_callback_contract { cxP with isAtLeastU := true } [] 0
      ⟨true, [], [], [], ""⟩ 0 0 0 []).2.1 rfl rfl (by decide)).2
  · have h := (querySql_callback_contract { cxP with isAtLeastU := true }
      [(cxKey, { cxMgr with delegateValidatedUids := [7] })] 0
      ⟨true, [["a"]], [3], ["c"], ""⟩ 0 7 1 [1]).2.2.1 rfl rfl (by decide)
    rw [h]
    rfl


theorem alookup_eq_none_of_not_mem {κ α : Type} [DecidableEq κ] :
    ∀ (l : List (κ × α)) (key : κ), key ∉ l.map Prod.fst → alookup l key = none
  | [], _, _ => rfl
  | (k, _) :: rest, key, h => by
    simp only [List.map_cons, List.mem_cons] at h
    push_neg at h
    simp only [alookup]
    rw [if_neg (fun he => h.1 he.symm)]
    exact alookup_eq_none_of_not_mem rest key h.2

theorem alookup_aerase_self {κ α : Type} [DecidableEq κ] :
    ∀ (l : List (κ × α)) (key : κ), (l.map Prod.fst).Nodup →
      alookup (aerase l key) key = none
  | [], _, _ => rfl
  | (k, v) :: rest, key, h => by
    simp only [List.map_cons, List.nodup_cons] at h
    by_cases hk : k = key
    · simp only [aerase]
      rw [if_pos hk]
      subst hk
      exact alookup_eq_none_of_not_mem rest k h.1
    · simp only [aerase]
      rw [if_neg hk]
      simp only [alookup]
      rw [if_neg hk]
      exact alookup_aerase_self rest key h.2

theorem mem_aset_keys {κ α : Type} [DecidableEq κ] :
    ∀ (l : List (κ × α)) (key : κ) (v : α) (x : κ),
      x ∈ (aset l key v).map Prod.fst → x ∈ l.map Prod.fst ∨ x = key
  | [], key, v, x, h => by
    simp only [aset, List.map_cons, List.map_nil, List.mem_singleton] at h
    exact Or.inr h
  | (k, w) :: rest, key, v, x, h => by
    by_cases hk : k = key
    · simp only [aset] at h
      rw [if_pos hk] at h
      simp only [List.map_cons, List.mem_cons] at h
      rcases h with h | h
      · exact Or.inr h
      · exact Or.inl (by simp only [List.map_cons, List.mem_cons]; exact Or.inr h)
    · simp only [aset] at h
      rw [if_neg hk] at h
      simp only [List.map_cons, List.mem_cons] at h
      rcases h with h | h
      · exact Or.inl (by simp only [List.map_cons, List.mem_cons]; exact Or.inl h)
      · rcases mem_aset_keys rest key v x h with h2 | h2
        · exact Or.inl (by simp only [List.map_cons, List.mem_cons]; exact Or.inr h2)
        · exact Or.inr h2

theorem aset_nil_eq {κ α : Type} [DecidableEq κ] (key : κ) (v : α) :
    aset ([] : List (κ × α)) key v = [(key, v)] := rfl

theorem aset_cons_eq {κ α : Type} [DecidableEq κ] (k : κ) (w : α)
    (rest : List (κ × α)) (key : κ) (v : α) :
    aset ((k, w) :: rest) key v =
      if k = key then (key, v) :: rest else (k, w) :: aset rest key v := rfl

theorem aset_keys_nodup {κ α : Type} [DecidableEq κ] :
    ∀ (l : List (κ × α)) (key : κ) (v : α), (l.map Prod.fst).Nodup →
      ((aset l key v).map Prod.fst).Nodup
  | [], key, v, _ => by
    rw [aset_nil_eq]
    simp only [List.map_cons, List.map_nil]
    exact List.nodup_singleton key
  | (k, w) :: rest, key, v, h => by
    simp only [List.map_cons, List.nodup_cons] at h
    by_cases hk : k = key
    · rw [aset_cons_eq, if_pos hk]
      simp only [List.map_cons, List.nodup_cons]
      exact ⟨hk ▸ h.1, h.2⟩
    · rw [aset_cons_eq, if_neg hk]
      simp only [List.map_cons, List.nodup_cons]
      refine ⟨fun hmem => ?_, aset_keys_nodup rest key v h.2⟩
      rcases mem_aset_keys rest key v k hmem with h2 | h2
      · exact h.1 h2
      · exact hk h2

/-- C9: After OnConfigUpdatedLocked, a manager for the key is present in the
map iff the config validated (the fresh construction in the fresh branch,
the in-place update in the modular branch); an invalid config erases the
key; and when the erased manager had a restricted-metrics delegate on a U+
device, the single emitted broadcast is the empty restricted-metrics
broadcast to that delegate (the pre-existing manager in the fresh branch,
the in-place-updated one in the modular branch). -/
theorem OnConfigUpdated_presence (P : Params) (key : ConfigKey)
    (config : StatsdConfig) (modularUpdateIn : Bool) (cb : ConfigBuild)
    (managers : List (ConfigKey × MMgr))
    (hnd : (managers.map Prod.fst).Nodup) :
    ((alookup (OnConfigUpdatedLocked P key config modularUpdateIn cb
        managers).managers key).isSome
      = (OnConfigUpdatedLocked P key config modularUpdateIn cb
          managers).configValid) ∧
    ((OnConfigUpdatedLocked P key config modularUpdateIn cb
        managers).configValid
      = (if configUpdateFreshBranch P key config modularUpdateIn managers
          then cb.newValid else cb.updValid)) ∧
    (∀ old, alookup managers key = some old →
      configUpdateFreshBranch P key config modularUpdateIn managers = true →
      cb.newValid = false → old.hasRestrictedMetricsDelegate = true →
      P.isAtLeastU = true →
      (OnConfigUpdatedLocked P key config modularUpdateIn cb managers).emits
        = [Emit.restrictedMetricsBroadcast key
            old.restrictedMetricsDelegate []]) ∧
    (configUpdateFreshBranch P key config modularUpdateIn managers = false →
      cb.updValid = false → cb.updMgr.hasRestrictedMetricsDelegate = true →
      P.isAtLeastU = true →
      (OnConfigUpdatedLocked P key config modularUpdateIn cb managers).emits
        = [Emit.restrictedMetricsBroadcast key
            cb.updMgr.restrictedMetricsDelegate []]) := by
  by_cases hfb :
      configUpdateFreshBranch P key config modularUpdateIn managers = true
  · by_cases hv : cb.newValid = true
    · refine ⟨?_, ?_, ?_, ?_⟩
      · simp only [OnConfigUpdatedLocked]
        rw [if_pos hfb, if_pos hv]
        dsimp only
        rw [alookup_aset_self]
        rfl
      · simp only [OnConfigUpdatedLocked]
        rw [if_pos hfb, if_pos hv]
        dsimp only
        rw [if_pos hfb]
        exact hv.symm
      · intro old _ _ hnv _ _
        rw [hv] at hnv
        exact absurd hnv (by decide)
      · intro hfb2 _ _ _
        rw [hfb2] at hfb
        exact absurd hfb (by decide)
    · have hvf : cb.newValid = false := Bool.eq_false_iff.mpr hv
      refine ⟨?_, ?_, ?_, ?_⟩
      · simp only [OnConfigUpdatedLocked]
        rw [if_pos hfb, if_neg hv]
        dsimp only
        rw [alookup_aerase_self managers key hnd]
        rfl
      · simp only [OnConfigUpdatedLocked]
        rw [if_pos hfb, if_neg hv]
        dsimp only
        rw [if_pos hfb]
        exact hvf.symm
      · intro old hold _ _ hdel hU
        simp only [OnConfigUpdatedLocked]
        rw [if_pos hfb, if_neg hv]
        dsimp only
        rw [hold]
        dsimp only
        rw [if_pos ⟨hU, hdel⟩]
      · intro hfb2 _ _ _
        rw [hfb2] at hfb
        exact absurd hfb (by decide)
  · have hfbf : configUpdateFreshBranch P key config modularUpdateIn managers
        = false := Bool.eq_false_iff.mpr hfb
    by_cases hv : cb.updValid = true
    · refine ⟨?_, ?_, ?_, ?_⟩
      · simp only [OnConfigUpdatedLocked]
        rw [if_neg hfb, if_pos hv]
        dsimp only
        rw [alookup_aset_self]
        rfl
      · simp only [OnConfigUpdatedLocked]
        rw [if_neg hfb, if_pos hv]
        dsimp only
        rw [if_neg hfb]
        exact hv.symm
      · intro old _ hfb2 _ _ _
        exact absurd hfb2 hfb
      · intro _ hnv _ _
        rw [hv] at hnv
        exact absurd hnv (by decide)
    · have hvf : cb.updValid = false := Bool.eq_false_iff.mpr hv
      refine ⟨?_, ?_, ?_, ?_⟩
      · simp only [OnConfigUpdatedLocked]
        rw [if_neg hfb, if_neg hv]
        dsimp only
        rw [alookup_aerase_self _ key
          (aset_keys_nodup managers key cb.updMgr hnd)]
        rfl
      · simp only [OnConfigUpdatedLocked]
        rw [if_neg hfb, if_neg hv]
        dsimp only
        rw [if_neg hfb]
        exact hvf.symm
      · intro old _ hfb2 _ _ _
        exact absurd hfb2 hfb
      · intro _ _ hdel hU
        simp only [OnConfigUpdatedLocked]
        rw [if_neg hfb, if_neg hv]
        dsimp only
        rw [if_pos ⟨hU, hdel⟩]

theorem OnConfigUpdated_presence_witness :
    (([(ConfigKey.mk 1 1, cuOldMgr)].map Prod.fst).Nodup ∧
      alookup [(ConfigKey.mk 1 1, cuOldMgr)] (ConfigKey.mk 1 1)
        = some cuOldMgr ∧
      configUpdateFreshBranch cuP (ConfigKey.mk 1 1) ⟨false⟩ true
        [(ConfigKey.mk 1 1, cuOldMgr)] = true ∧
      cuBuild.newValid = false ∧
      cuOldMgr.hasRestrictedMetricsDelegate = true ∧
      cuP.isAtLeastU = true) ∧
    ((alookup (OnConfigUpdatedLocked cuP (ConfigKey.mk 1 1) ⟨false⟩ true
        cuBuild [(ConfigKey.mk 1 1, cuOldMgr)]).managers
        (ConfigKey.mk 1 1)).isSome
      = (OnConfigUpdatedLocked cuP (ConfigKey.mk 1 1) ⟨false⟩ true cuBuild
          [(ConfigKey.mk 1 1, cuOldMgr)]).configValid) ∧
    ((OnConfigUpdatedLocked cuP (ConfigKey.mk 1 1) ⟨false⟩ true cuBuild
        [(ConfigKey.mk 1 1, cuOldMgr)]).emits
      = [Emit.restrictedMetricsBroadcast (ConfigKey.mk 1 1)
          cuOldMgr.restrictedMetricsDelegate []]) := by
  refine ⟨by decide, ?_, ?_⟩
  · exact (OnConfigUpdated_presence cuP (ConfigKey.mk 1 1) ⟨false⟩ true
      cuBuild [(ConfigKey.mk 1 1, cuOldMgr)] (by decide)).1
  · exact (OnConfigUpdated_presence cuP (ConfigKey.mk 1 1) ⟨false⟩ true
      cuBuild [(ConfigKey.mk 1 1, cuOldMgr)] (by decide)).2.2.1 cuOldMgr
      (by decide) (by decide) (by decide) (by decide) (by decide)

theorem flush_lbt_shape (P : Params) (now : Int) (key : ConfigKey) (m : MMgr)
    (broadcastOk : Bool) (lbt lbst : List (ConfigKey × Int)) (odc : List ConfigKey) :
    (flushIfNecessaryLocked P now key m broadcastOk lbt lbst odc).lastBroadcastTimes
        = lbt ∨
    (flushIfNecessaryLocked P now key m broadcastOk lbt lbst odc).lastBroadcastTimes
        = aset lbt key now := by
  unfold flushIfNecessaryLocked
  by_cases h1 : byteSizeCheckDue P now lbst key = true <;>
    by_cases h2 : m.maxMetricsBytes < m.byteSize <;>
    by_cases h3 : m.hasRestrictedMetricsDelegate = true <;>
    by_cases h6 : key ∈ odc <;>
    by_cases h7 : broadcastDue P now lbt key = true <;>
    cases broadcastOk <;>
    by_cases h4 : P.kBytesPerRestrictedConfigTriggerFlush < m.byteSize <;>
    by_cases h5 : m.triggerGetDataBytes < m.byteSize <;>
    simp [h1, h2, h3, h4, h5, h6, h7]

/-- flushIfNecessaryLocked either sends no data-ready broadcast for the key
and leaves its last-broadcast bookkeeping untouched, or sends exactly one,
stamps the key with the current clock, and — when a previous stamp existed —
that stamp is at least kMinBroadcastPeriodNs in the past. -/
theorem flush_broadcast_link (P : Params) (now : Int) (key : ConfigKey)
    (m : MMgr) (broadcastOk : Bool) (lbt lbst : List (ConfigKey × Int))
    (odc : List ConfigKey) :
    ((flushIfNecessaryLocked P now key m broadcastOk lbt lbst odc).emits.countP
        (isBroadcastFor key) = 0 ∧
      (flushIfNecessaryLocked P now key m broadcastOk lbt lbst odc).lastBroadcastTimes
        = lbt) ∨
    ((flushIfNecessaryLocked P now key m broadcastOk lbt lbst odc).emits.countP
        (isBroadcastFor key) = 1 ∧
      (flushIfNecessaryLocked P now key m broadcastOk lbt lbst odc).lastBroadcastTimes
        = aset lbt key now ∧
      ∀ t0, alookup lbt key = some t0 → t0 + P.kMinBroadcastPeriodNs ≤ now) := by
  have hlink : broadcastDue P now lbt key = true →
      ∀ t0, alookup lbt key = some t0 → t0 + P.kMinBroadcastPeriodNs ≤ now := by
    intro h7 t0 ht0
    unfold broadcastDue at h7
    rw [ht0] at h7
    simp at h7
    omega
  unfold flushIfNecessaryLocked
  by_cases h1 : byteSizeCheckDue P now lbst key = true
  · by_cases h2 : m.maxMetricsBytes < m.byteSize
    · exact Or.inl (by simp [h1, h2, isBroadcastFor])
    · by_cases h3 : m.hasRestrictedMetricsDelegate = true
      · by_cases h4 : P.kBytesPerRestrictedConfigTriggerFlush < m.byteSize
        · by_cases h6 : key ∈ odc <;>
            exact Or.inl (by simp [h1, h2, h3, h4, h6, isBroadcastFor])
        · by_cases h6 : key ∈ odc <;>
            exact Or.inl (by simp [h1, h2, h3, h4, h6, isBroadcastFor])
      · by_cases h5 : m.triggerGetDataBytes < m.byteSize
        · by_cases h7 : broadcastDue P now lbt key = true
          · cases hbok : broadcastOk
            · exact Or.inl (by simp [h1, h2, h3, h5, h7, isBroadcastFor])
            · refine Or.inr ⟨?_, ?_, hlink h7⟩
              · simp [h1, h2, h3, h5, h7, isBroadcastFor]
              · simp [h1, h2, h3, h5, h7]
          · by_cases h6 : key ∈ odc <;>
              exact Or.inl (by simp [h1, h2, h3, h5, h6, h7, isBroadcastFor])
        · by_cases h6 : key ∈ odc
          · by_cases h7 : broadcastDue P now lbt key = true
            · cases hbok : broadcastOk
              · exact Or.inl (by simp [h1, h2, h3, h5, h6, h7, isBroadcastFor])
              · refine Or.inr ⟨?_, ?_, hlink h7⟩
                · simp [h1, h2, h3, h5, h6, h7, isBroadcastFor]
                · simp [h1, h2, h3, h5, h6, h7]
            · exact Or.inl (by simp [h1, h2, h3, h5, h6, h7, isBroadcastFor])
          · exact Or.inl (by simp [h1, h2, h3, h5, h6, isBroadcastFor])
  · exact Or.inl (by simp [h1])

/-- A manager loop over keys not containing the observed key neither sends a
data-ready broadcast for it nor moves its last-broadcast stamp. -/
theorem managerLoopGo_notkey (P : Params) (s : EventStep) (ev : LogEvent) :
    ∀ (l : List (ConfigKey × MMgr)) (t : LoopSt) (key : ConfigKey),
      key ∉ l.map Prod.fst →
      (managerLoopGo P s ev l t).2.1.countP (isBroadcastFor key) = 0 ∧
      alookup (managerLoopGo P s ev l t).2.2.lastBroadcastTimes key
        = alookup t.lastBroadcastTimes key := by
  intro l
  induction l with
  | nil => intro t key _; exact ⟨rfl, rfl⟩
  | cons hd rest ih =>
    intro t key hni
    obtain ⟨k, m⟩ := hd
    simp only [List.map_cons, List.mem_cons] at hni
    push_neg at hni
    obtain ⟨hkne, hni2⟩ := hni
    have hkne2 : ¬ k = key := fun h => hkne h.symm
    by_cases hskip : (ev.isRestricted = true ∧ ¬ m.hasRestrictedMetricsDelegate = true)
    · simp only [managerLoopGo]
      rw [if_pos hskip]
      dsimp only
      exact ih t key hni2
    · simp only [managerLoopGo]
      rw [if_neg hskip]
      dsimp only
      obtain ⟨hmgr, hlbt, hlbst, hodc, hemits⟩ := procOneManager_flush P s k m t
      have hc : (procOneManager P s k m t).2.1.countP (isBroadcastFor key) = 0 := by
        rcases flush_emits_shape P s.now k
            { m with byteSize := s.newByteSize k, isActive := s.newActive k }
            (s.broadcastOk k) t.lastBroadcastTimes t.lastByteSizeTimes
            t.onDiskDataConfigs with hf | hf | hf <;>
          rcases hemits with he | he <;>
          rw [he, hf] <;>
          simp [List.countP_cons, isBroadcastFor, hkne2]
      have hl : alookup (procOneManager P s k m t).2.2.lastBroadcastTimes key
          = alookup t.lastBroadcastTimes key := by
        rw [hlbt]
        rcases flush_lbt_shape P s.now k
            { m with byteSize := s.newByteSize k, isActive := s.newActive k }
            (s.broadcastOk k) t.lastBroadcastTimes t.lastByteSizeTimes
            t.onDiskDataConfigs with hf | hf <;> rw [hf]
        exact alookup_aset_ne _ _ _ _ hkne2
      obtain ⟨ihc, ihl⟩ := ih (procOneManager P s k m t).2.2 key hni2
      constructor
      · rw [List.countP_append, hc, ihc]
      · rw [ihl, hl]

/-- The manager loop either sends no data-ready broadcast for the key and
leaves its last-broadcast stamp where it was, or sends exactly one, stamps
the key with the clock, and any previous stamp was at least
kMinBroadcastPeriodNs in the past. -/
theorem managerLoopGo_broadcast_link (P : Params) (s : EventStep) (ev : LogEvent) :
    ∀ (l : List (ConfigKey × MMgr)) (t : LoopSt), (l.map Prod.fst).Nodup →
    ∀ key : ConfigKey,
      ((managerLoopGo P s ev l t).2.1.countP (isBroadcastFor key) = 0 ∧
        alookup (managerLoopGo P s ev l t).2.2.lastBroadcastTimes key
          = alookup t.lastBroadcastTimes key) ∨
      ((managerLoopGo P s ev l t).2.1.countP (isBroadcastFor key) = 1 ∧
        alookup (managerLoopGo P s ev l t).2.2.lastBroadcastTimes key
          = some s.now ∧
        ∀ t0, alookup t.lastBroadcastTimes key = some t0 →
          t0 + P.kMinBroadcastPeriodNs ≤ s.now) := by
  intro l
  induction l with
  | nil => intro t _ key; exact Or.inl ⟨rfl, rfl⟩
  | cons hd rest ih =>
    intro t hnd key
    obtain ⟨k, m⟩ := hd
    simp only [List.map_cons, List.nodup_cons] at hnd
    obtain ⟨hkni, hnd2⟩ := hnd
    by_cases hskip : (ev.isRestricted = true ∧ ¬ m.hasRestrictedMetricsDelegate = true)
    · simp only [managerLoopGo]
      rw [if_pos hskip]
      dsimp only
      exact ih t hnd2 key
    · simp only [managerLoopGo]
      rw [if_neg hskip]
      dsimp only
      obtain ⟨hmgr, hlbt, hlbst, hodc, hemits⟩ := procOneManager_flush P s k m t
      by_cases hk : k = key
      · subst hk
        rcases flush_broadcast_link P s.now k
            { m with byteSize := s.newByteSize k, isActive := s.newActive k }
            (s.broadcastOk k) t.lastBroadcastTimes t.lastByteSizeTimes
            t.onDiskDataConfigs with ⟨hfc, hflbt⟩ | ⟨hfc, hflbt, hflink⟩
        · have hc : (procOneManager P s k m t).2.1.countP (isBroadcastFor k) = 0 := by
            rcases hemits with he | he <;> rw [he] <;>
              simp [List.countP_cons, isBroadcastFor, hfc]
          have hl : alookup (procOneManager P s k m t).2.2.lastBroadcastTimes k
              = alookup t.lastBroadcastTimes k := by
            rw [hlbt, hflbt]
          rcases ih (procOneManager P s k m t).2.2 hnd2 k with
              ⟨ihc, ihl⟩ | ⟨ihc, ihl, ihlink⟩
          · exact Or.inl ⟨by rw [List.countP_append, hc, ihc],
              by rw [ihl, hl]⟩
          · refine Or.inr ⟨by rw [List.countP_append, hc, ihc], ihl, ?_⟩
            intro t0 ht0
            exact ihlink t0 (by rw [hl]; exact ht0)
        · have hc : (procOneManager P s k m t).2.1.countP (isBroadcastFor k) = 1 := by
            rcases hemits with he | he <;> rw [he] <;>
              simp [List.countP_cons, isBroadcastFor, hfc]
          have hl : alookup (procOneManager P s k m t).2.2.lastBroadcastTimes k
              = some s.now := by
            rw [hlbt, hflbt]
            exact alookup_aset_self _ _ _
          obtain ⟨ihc, ihl⟩ := managerLoopGo_notkey P s ev rest
            (procOneManager P s k m t).2.2 k hkni
          refine Or.inr ⟨by rw [List.countP_append, hc, ihc], by rw [ihl, hl], ?_⟩
          intro t0 ht0
          exact hflink t0 ht0
      · have hkne2 : ¬ k = key := hk
        have hc : (procOneManager P s k m t).2.1.countP (isBroadcastFor key) = 0 := by
          rcases flush_emits_shape P s.now k
              { m with byteSize := s.newByteSize k, isActive := s.newActive k }
              (s.broadcastOk k) t.lastBroadcastTimes t.lastByteSizeTimes
              t.onDiskDataConfigs with hf | hf | hf <;>
            rcases hemits with he | he <;>
            rw [he, hf] <;>
            simp [List.countP_cons, isBroadcastFor, hkne2]
        have hl : alookup (procOneManager P s k m t).2.2.lastBroadcastTimes key
            = alookup t.lastBroadcastTimes key := by
          rw [hlbt]
          rcases flush_lbt_shape P s.now k
              { m with byteSize := s.newByteSize k, isActive := s.newActive k }
              (s.broadcastOk k) t.lastBroadcastTimes t.lastByteSizeTimes
              t.onDiskDataConfigs with hf | hf <;> rw [hf]
          exact alookup_aset_ne _ _ _ _ hkne2
        rcases ih (procOneManager P s k m t).2.2 hnd2 key with
            ⟨ihc, ihl⟩ | ⟨ihc, ihl, ihlink⟩
        · exact Or.inl ⟨by rw [List.countP_append, hc, ihc], by rw [ihl, hl]⟩
        · refine Or.inr ⟨by rw [List.countP_append, hc, ihc], ihl, ?_⟩
          intro t0 ht0
          exact ihlink t0 (by rw [hl]; exact ht0)

/-- The manager loop never sends an activation broadcast. -/
theorem managerLoopGo_no_activation (P : Params) (s : EventStep) (ev : LogEvent) :
    ∀ (l : List (ConfigKey × MMgr)) (t : LoopSt) (uid : Int),
      (managerLoopGo P s ev l t).2.1.countP (isActivationFor uid) = 0 := by
  intro l
  induction l with
  | nil => intro t uid; rfl
  | cons hd rest ih =>
    intro t uid
    obtain ⟨k, m⟩ := hd
    by_cases hskip : (ev.isRestricted = true ∧ ¬ m.hasRestrictedMetricsDelegate = true)
    · simp only [managerLoopGo]
      rw [if_pos hskip]
      dsimp only
      exact ih t uid
    · simp only [managerLoopGo]
      rw [if_neg hskip]
      dsimp only
      rw [List.countP_append, ih (procOneManager P s k m t).2.2 uid]
      obtain ⟨_, _, _, _, hemits⟩ := procOneManager_flush P s k m t
      rcases flush_emits_shape P s.now k
          { m with byteSize := s.newByteSize k, isActive := s.newActive k }
          (s.broadcastOk k) t.lastBroadcastTimes t.lastByteSizeTimes
          t.onDiskDataConfigs with hf | hf | hf <;>
        rcases hemits with he | he <;>
        rw [he, hf] <;>
        simp [List.countP_cons, isActivationFor]

/-- The activation loop never sends a data-ready broadcast. -/
theorem activationLoopGo_no_broadcast (P : Params) (s : EventStep)
    (acfg : List (Int × List Int)) :
    ∀ (uids : List Int) (lat : List (Int × Int)) (key : ConfigKey),
      (activationLoopGo P s acfg uids lat).2.countP (isBroadcastFor key) = 0 := by
  intro uids
  induction uids with
  | nil => intro lat key; rfl
  | cons uid rest ih =>
    intro lat key
    unfold activationLoopGo
    by_cases hb : (match alookup lat uid with
        | some t => decide (s.now - t < P.kMinActivationBroadcastPeriodNs)
        | none => false) = true
    · rw [if_pos hb]
      simp [List.countP_cons, isBroadcastFor]
    · rw [if_neg hb]
      by_cases hok : s.activationOk uid = true
      · rw [if_pos hok]
        dsimp only
        rw [List.countP_cons]
        rw [ih (aset lat uid s.now) key]
        simp [isBroadcastFor]
      · rw [if_neg hok]
        dsimp only
        exact ih lat key

theorem nodup_append_singleton {α : Type} (l : List α) (a : α)
    (h : l.Nodup) (hni : a ∉ l) : (l ++ [a]).Nodup := by
  rw [List.nodup_append]
  refine ⟨h, List.nodup_singleton a, ?_⟩
  intro x hx hxa
  simp only [List.mem_singleton] at hxa
  subst hxa
  exact hni hx

/-- procOneManager either keeps the changed-uid list or appends one uid not
already in it. -/
theorem procOneManager_uidsChanged (P : Params) (s : EventStep) (key : ConfigKey)
    (m : MMgr) (t : LoopSt) :
    (procOneManager P s key m t).2.2.uidsChanged = t.uidsChanged ∨
    ∃ uid, uid ∉ t.uidsChanged ∧
      (procOneManager P s key m t).2.2.uidsChanged = t.uidsChanged ++ [uid] := by
  unfold procOneManager
  by_cases hact : s.newActive key = true <;>
    by_cases hprev : m.isActive = true <;>
    by_cases hmem : key.uid ∈ t.uidsChanged <;>
    simp [hact, hprev, hmem]

theorem managerLoopGo_uidsChanged_nodup (P : Params) (s : EventStep)
    (ev : LogEvent) :
    ∀ (l : List (ConfigKey × MMgr)) (t : LoopSt), t.uidsChanged.Nodup →
      (managerLoopGo P s ev l t).2.2.uidsChanged.Nodup := by
  intro l
  induction l with
  | nil => intro t h; exact h
  | cons hd rest ih =>
    intro t h
    obtain ⟨k, m⟩ := hd
    by_cases hskip : (ev.isRestricted = true ∧ ¬ m.hasRestrictedMetricsDelegate = true)
    · simp only [managerLoopGo]
      rw [if_pos hskip]
      dsimp only
      exact ih t h
    · simp only [managerLoopGo]
      rw [if_neg hskip]
      dsimp only
      refine ih (procOneManager P s k m t).2.2 ?_
      rcases procOneManager_uidsChanged P s k m t with hu | ⟨uid, hni, hu⟩
      · rw [hu]; exact h
      · rw [hu]; exact nodup_append_singleton _ _ h hni

/-- An activation loop over uids not containing the observed uid neither sends
an activation broadcast to it nor moves its last-activation stamp. -/
theorem activationLoopGo_notmem (P : Params) (s : EventStep)
    (acfg : List (Int × List Int)) :
    ∀ (uids : List Int) (lat : List (Int × Int)) (uid : Int), uid ∉ uids →
      (activationLoopGo P s acfg uids lat).2.countP (isActivationFor uid) = 0 ∧
      alookup (activationLoopGo P s acfg uids lat).1 uid = alookup lat uid := by
  intro uids
  induction uids with
  | nil => intro lat uid _; exact ⟨rfl, rfl⟩
  | cons u rest ih =>
    intro lat uid hni
    simp only [List.mem_cons] at hni
    push_neg at hni
    obtain ⟨hne, hni2⟩ := hni
    have hne2 : ¬ u = uid := fun hh => hne hh.symm
    unfold activationLoopGo
    by_cases hb : (match alookup lat u with
        | some t => decide (s.now - t < P.kMinActivationBroadcastPeriodNs)
        | none => false) = true
    · rw [if_pos hb]
      exact ⟨by simp [List.countP_cons, isActivationFor], rfl⟩
    · rw [if_neg hb]
      by_cases hok : s.activationOk u = true
      · rw [if_pos hok]
        dsimp only
        obtain ⟨ihc, ihl⟩ := ih (aset lat u s.now) uid hni2
        constructor
        · rw [List.countP_cons, ihc]
          simp [isActivationFor, hne2]
        · rw [ihl]
          exact alookup_aset_ne _ _ _ _ hne2
      · rw [if_neg hok]
        dsimp only
        exact ih lat uid hni2

/-- The activation loop either sends no activation broadcast to the uid and
leaves its last-activation stamp where it was, or sends exactly one, stamps
the uid with the clock, and any previous stamp was at least
kMinActivationBroadcastPeriodNs in the past. -/
theorem activationLoopGo_sep (P : Params) (s : EventStep)
    (acfg : List (Int × List Int)) :
    ∀ (uids : List Int) (lat : List (Int × Int)), uids.Nodup → ∀ uid : Int,
      ((activationLoopGo P s acfg uids lat).2.countP (isActivationFor uid) = 0 ∧
        alookup (activationLoopGo P s acfg uids lat).1 uid = alookup lat uid) ∨
      ((activationLoopGo P s acfg uids lat).2.countP (isActivationFor uid) = 1 ∧
        alookup (activationLoopGo P s acfg uids lat).1 uid = some s.now ∧
        ∀ t0, alookup lat uid = some t0 →
          t0 + P.kMinActivationBroadcastPeriodNs ≤ s.now) := by
  intro uids
  induction uids with
  | nil => intro lat _ uid; exact Or.inl ⟨rfl, rfl⟩
  | cons u rest ih =>
    intro lat hnd uid
    simp only [List.nodup_cons] at hnd
    obtain ⟨huni, hnd2⟩ := hnd
    unfold activationLoopGo
    by_cases hb : (match alookup lat u with
        | some t => decide (s.now - t < P.kMinActivationBroadcastPeriodNs)
        | none => false) = true
    · rw [if_pos hb]
      exact Or.inl ⟨by simp [List.countP_cons, isActivationFor], rfl⟩
    · rw [if_neg hb]
      by_cases hok : s.activationOk u = true
      · rw [if_pos hok]
        dsimp only
        by_cases hu : u = uid
        · subst hu
          obtain ⟨ihc, ihl⟩ := activationLoopGo_notmem P s acfg rest
            (aset lat u s.now) u huni
          refine Or.inr ⟨?_, ?_, ?_⟩
          · rw [List.countP_cons, ihc]
            simp [isActivationFor]
          · rw [ihl]
            exact alookup_aset_self _ _ _
          · intro t0 ht0
            rw [ht0] at hb
            simp at hb
            omega
        · have hu2 : ¬ u = uid := hu
          rcases ih (aset lat u s.now) hnd2 uid with ⟨ihc, ihl⟩ | ⟨ihc, ihl, ihlink⟩
          · refine Or.inl ⟨?_, ?_⟩
            · rw [List.countP_cons, ihc]
              simp [isActivationFor, hu2]
            · rw [ihl]
              exact alookup_aset_ne _ _ _ _ hu2
          · refine Or.inr ⟨?_, ihl, ?_⟩
            · rw [List.countP_cons, ihc]
              simp [isActivationFor, hu2]
            · intro t0 ht0
              refine ihlink t0 ?_
              rw [alookup_aset_ne _ _ _ _ hu2]
              exact ht0
      · rw [if_neg hok]
        dsimp only
        exact ih lat hnd2 uid

theorem OnLogEvent_keys_nodup (P : Params) (s : EventStep) (ps : ProcState)
    (d : Disk) (hnd : (ps.metricsManagers.map Prod.fst).Nodup) :
    (((OnLogEvent P s ps d).1.metricsManagers).map Prod.fst).Nodup := by
  unfold OnLogEvent
  by_cases hval : ¬ s.ev.isValid = true
  · rw [if_pos hval]
    exact hnd
  · rw [if_neg hval]
    by_cases hemp : (resetIfConfigTtlExpiredLocked s ps).metricsManagers = []
    · rw [if_pos hemp]
      exact ttl_keys_nodup s ps hnd
    · rw [if_neg hemp]
      by_cases hbc : ¬ validateAppBreadcrumbEvent s.hostUid (dispatchedEvent s d) = true
      · rw [if_pos hbc]
        exact ttl_keys_nodup s ps hnd
      · rw [if_neg hbc]
        dsimp only
        rw [managerLoopGo_keys]
        exact ttl_keys_nodup s ps hnd

/-- One OnLogEvent call either sends no data-ready broadcast for the key and
leaves its last-broadcast stamp where it was, or sends exactly one, stamps
the key with the call's clock, and any previous stamp was at least
kMinBroadcastPeriodNs in the past. -/
theorem OnLogEvent_broadcast_link (P : Params) (s : EventStep) (ps : ProcState)
    (d : Disk) (key : ConfigKey)
    (hnd : (ps.metricsManagers.map Prod.fst).Nodup) :
    ((OnLogEvent P s ps d).2.2.countP (isBroadcastFor key) = 0 ∧
      alookup (OnLogEvent P s ps d).1.lastBroadcastTimes key
        = alookup ps.lastBroadcastTimes key) ∨
    ((OnLogEvent P s ps d).2.2.countP (isBroadcastFor key) = 1 ∧
      alookup (OnLogEvent P s ps d).1.lastBroadcastTimes key = some s.now ∧
      ∀ t0, alookup ps.lastBroadcastTimes key = some t0 →
        t0 + P.kMinBroadcastPeriodNs ≤ s.now) := by
  unfold OnLogEvent
  by_cases hval : ¬ s.ev.isValid = true
  · rw [if_pos hval]
    exact Or.inl ⟨by simp [List.countP_cons, isBroadcastFor], rfl⟩
  · rw [if_neg hval]
    by_cases hemp : (resetIfConfigTtlExpiredLocked s ps).metricsManagers = []
    · rw [if_pos hemp]
      exact Or.inl ⟨rfl, by rw [(ttl_fields s ps).2.1]⟩
    · rw [if_neg hemp]
      by_cases hbc : ¬ validateAppBreadcrumbEvent s.hostUid (dispatchedEvent s d) = true
      · rw [if_pos hbc]
        exact Or.inl ⟨rfl, by rw [(ttl_fields s ps).2.1]⟩
      · rw [if_neg hbc]
        dsimp only
        rw [List.countP_append]
        rw [activationLoopGo_no_broadcast P s _ _ _ key]
        have hlbt0 : (⟨(resetIfConfigTtlExpiredLocked s ps).lastBroadcastTimes,
            (resetIfConfigTtlExpiredLocked s ps).lastByteSizeTimes,
            (resetIfConfigTtlExpiredLocked s ps).onDiskDataConfigs,
            [], []⟩ : LoopSt).lastBroadcastTimes = ps.lastBroadcastTimes :=
          (ttl_fields s ps).2.1
        rcases managerLoopGo_broadcast_link P s (dispatchedEvent s d)
            (resetIfConfigTtlExpiredLocked s ps).metricsManagers
            ⟨(resetIfConfigTtlExpiredLocked s ps).lastBroadcastTimes,
              (resetIfConfigTtlExpiredLocked s ps).lastByteSizeTimes,
              (resetIfConfigTtlExpiredLocked s ps).onDiskDataConfigs,
              [], []⟩ (ttl_keys_nodup s ps hnd) key with
            ⟨hc, hl⟩ | ⟨hc, hl, hlink⟩
        · refine Or.inl ⟨by rw [hc], ?_⟩
          rw [hl, hlbt0]
        · refine Or.inr ⟨by rw [hc], hl, ?_⟩
          intro t0 ht0
          refine hlink t0 ?_
          rw [hlbt0]
          exact ht0

/-- One OnLogEvent call either sends no activation broadcast to the uid and
leaves its last-activation stamp where it was, or sends exactly one, stamps
the uid with the call's clock, and any previous stamp was at least
kMinActivationBroadcastPeriodNs in the past. -/
theorem OnLogEvent_activation_link (P : Params) (s : EventStep) (ps : ProcState)
    (d : Disk) (uid : Int) :
    ((OnLogEvent P s ps d).2.2.countP (isActivationFor uid) = 0 ∧
      alookup (OnLogEvent P s ps d).1.lastActivationBroadcastTimes uid
        = alookup ps.lastActivationBroadcastTimes uid) ∨
    ((OnLogEvent P s ps d).2.2.countP (isActivationFor uid) = 1 ∧
      alookup (OnLogEvent P s ps d).1.lastActivationBroadcastTimes uid
        = some s.now ∧
      ∀ t0, alookup ps.lastActivationBroadcastTimes uid = some t0 →
        t0 + P.kMinActivationBroadcastPeriodNs ≤ s.now) := by
  unfold OnLogEvent
  by_cases hval : ¬ s.ev.isValid = true
  · rw [if_pos hval]
    exact Or.inl ⟨by simp [List.countP_cons, isActivationFor], rfl⟩
  · rw [if_neg hval]
    by_cases hemp : (resetIfConfigTtlExpiredLocked s ps).metricsManagers = []
    · rw [if_pos hemp]
      exact Or.inl ⟨rfl, by rw [(ttl_fields s ps).2.2]⟩
    · rw [if_neg hemp]
      by_cases hbc : ¬ validateAppBreadcrumbEvent s.hostUid (dispatchedEvent s d) = true
      · rw [if_pos hbc]
        exact Or.inl ⟨rfl, by rw [(ttl_fields s ps).2.2]⟩
      · rw [if_neg hbc]
        dsimp only
        rw [List.countP_append]
        rw [managerLoopGo_no_activation P s (dispatchedEvent s d) _ _ uid]
        have hlat0 : (resetIfConfigTtlExpiredLocked s ps).lastActivationBroadcastTimes
            = ps.lastActivationBroadcastTimes := (ttl_fields s ps).2.2
        have hund : (managerLoopGo P s (dispatchedEvent s d)
            (resetIfConfigTtlExpiredLocked s ps).metricsManagers
            ⟨(resetIfConfigTtlExpiredLocked s ps).lastBroadcastTimes,
              (resetIfConfigTtlExpiredLocked s ps).lastByteSizeTimes,
              (resetIfConfigTtlExpiredLocked s ps).onDiskDataConfigs,
              [], []⟩).2.2.uidsChanged.Nodup :=
          managerLoopGo_uidsChanged_nodup P s (dispatchedEvent s d) _ _
            List.nodup_nil
        rcases activationLoopGo_sep P s _ _ 
            (resetIfConfigTtlExpiredLocked s ps).lastActivationBroadcastTimes
            hund uid with ⟨hc, hl⟩ | ⟨hc, hl, hlink⟩
        · refine Or.inl ⟨by rw [hc], ?_⟩
          rw [hl, hlat0]
        · refine Or.inr ⟨by rw [hc], hl, ?_⟩
          intro t0 ht0
          refine hlink t0 ?_
          rw [hlat0]
          exact ht0

/-- onDumpReport leaves the managers and the activation bookkeeping
untouched, and moves no last-broadcast stamp of any other key. -/
theorem onDumpReport_state (key2 : ConfigKey) (ps : ProcState) :
    (onDumpReport key2 ps).metricsManagers = ps.metricsManagers ∧
    (onDumpReport key2 ps).lastActivationBroadcastTimes
      = ps.lastActivationBroadcastTimes ∧
    ∀ key, ¬ key2 = key →
      alookup (onDumpReport key2 ps).lastBroadcastTimes key
        = alookup ps.lastBroadcastTimes key := by
  unfold onDumpReport
  cases hm : alookup ps.metricsManagers key2 with
  | none => exact ⟨rfl, rfl, fun key _ => rfl⟩
  | some m =>
    dsimp only
    by_cases hd : m.hasRestrictedMetricsDelegate = true
    · rw [if_pos hd]
      exact ⟨rfl, rfl, fun key _ => rfl⟩
    · rw [if_neg hd]
      exact ⟨rfl, rfl, fun key h => alookup_aerase_ne _ _ _ h⟩

theorem timesOf_append (p : Emit → Bool) (l1 l2 : List (Int × Emit)) :
    timesOf p (l1 ++ l2) = timesOf p l1 ++ timesOf p l2 := by
  unfold timesOf
  rw [List.filterMap_append]

theorem timesOf_map_const (p : Emit → Bool) (tm : Int) :
    ∀ ems : List Emit,
      timesOf p (ems.map (fun em => (tm, em)))
        = List.replicate (ems.countP p) tm
  | [] => rfl
  | em :: rest => by
    have ih := timesOf_map_const p tm rest
    unfold timesOf at ih ⊢
    by_cases hp : p em = true
    · simp [List.filterMap_cons, List.countP_cons, hp, ih, List.replicate_succ]
    · simp [List.filterMap_cons, List.countP_cons, hp, ih]

/-- Over a trace containing no dump report for the key, the data-ready
broadcast clocks for the key are chained at least kMinBroadcastPeriodNs
apart, and the first of them is at least that far from any pre-existing
last-broadcast stamp. -/
theorem trace_broadcast_sep (P : Params) (key : ConfigKey) :
    ∀ (trace : List PStep) (ps : ProcState) (d : Disk),
      (ps.metricsManagers.map Prod.fst).Nodup →
      trace.all (fun st => ! st.isDumpFor key) = true →
      List.Chain' (fun a b => a + P.kMinBroadcastPeriodNs ≤ b)
        (broadcastTimesFor key (runTrace P trace ps d).2.2) ∧
      ∀ t0, alookup ps.lastBroadcastTimes key = some t0 →
        ∀ t1, (broadcastTimesFor key (runTrace P trace ps d).2.2).head?
            = some t1 →
          t0 + P.kMinBroadcastPeriodNs ≤ t1 := by
  intro trace
  induction trace with
  | nil =>
    intro ps d _ _
    exact ⟨List.chain'_nil, fun t0 _ t1 h => by simp [runTrace, broadcastTimesFor, timesOf] at h⟩
  | cons st rest ih =>
    intro ps d hnd hall
    simp only [List.all_cons, Bool.and_eq_true] at hall
    obtain ⟨hst, hall2⟩ := hall
    cases st with
    | dumpReport k2 =>
      have hk2 : ¬ k2 = key := by
        simp only [PStep.isDumpFor, Bool.not_eq_true'] at hst
        simpa using hst
      obtain ⟨hmg, _, hlbt⟩ := onDumpReport_state k2 ps
      have hnd2 : ((onDumpReport k2 ps).metricsManagers.map Prod.fst).Nodup := by
        rw [hmg]; exact hnd
      obtain ⟨ihc, ihl⟩ := ih (onDumpReport k2 ps) d hnd2 hall2
      simp only [runTrace]
      refine ⟨ihc, ?_⟩
      intro t0 ht0 t1 ht1
      refine ihl t0 ?_ t1 ht1
      rw [hlbt key hk2]
      exact ht0
    | logEvent e =>
      simp only [runTrace]
      have hnd2 : (((OnLogEvent P e ps d).1.metricsManagers).map Prod.fst).Nodup :=
        OnLogEvent_keys_nodup P e ps d hnd
      obtain ⟨ihc, ihl⟩ := ih (OnLogEvent P e ps d).1 (OnLogEvent P e ps d).2.1
        hnd2 hall2
      have htimes : broadcastTimesFor key
          ((OnLogEvent P e ps d).2.2.map (fun em => (e.now, em)) ++
            (runTrace P rest (OnLogEvent P e ps d).1 (OnLogEvent P e ps d).2.1).2.2)
          = List.replicate ((OnLogEvent P e ps d).2.2.countP (isBroadcastFor key))
              e.now ++
            broadcastTimesFor key
              (runTrace P rest (OnLogEvent P e ps d).1
                (OnLogEvent P e ps d).2.1).2.2 := by
        unfold broadcastTimesFor
        rw [timesOf_append, timesOf_map_const]
      rcases OnLogEvent_broadcast_link P e ps d key hnd with
          ⟨hc, hl⟩ | ⟨hc, hl, hlink⟩
      · rw [htimes, hc]
        simp only [List.replicate, List.nil_append]
        refine ⟨ihc, ?_⟩
        intro t0 ht0 t1 ht1
        refine ihl t0 ?_ t1 ht1
        rw [hl]
        exact ht0
      · rw [htimes, hc]
        simp only [List.replicate, List.singleton_append]
        constructor
        · rw [List.chain'_cons']
          refine ⟨?_, ihc⟩
          intro t1 ht1
          exact ihl e.now hl t1 ht1
        · intro t0 ht0 t1 ht1
          simp only [List.head?_cons, Option.some.injEq] at ht1
          rw [← ht1]
          exact hlink t0 ht0

/-- Over any trace, the activation broadcast clocks to a uid are chained at
least kMinActivationBroadcastPeriodNs apart (no step of the modelled
interface erases the activation bookkeeping). -/
theorem trace_activation_sep (P : Params) (uid : Int) :
    ∀ (trace : List PStep) (ps : ProcState) (d : Disk),
      List.Chain' (fun a b => a + P.kMinActivationBroadcastPeriodNs ≤ b)
        (activationTimesFor uid (runTrace P trace ps d).2.2) ∧
      ∀ t0, alookup ps.lastActivationBroadcastTimes uid = some t0 →
        ∀ t1, (activationTimesFor uid (runTrace P trace ps d).2.2).head?
            = some t1 →
          t0 + P.kMinActivationBroadcastPeriodNs ≤ t1 := by
  intro trace
  induction trace with
  | nil =>
    intro ps d
    exact ⟨List.chain'_nil, fun t0 _ t1 h => by simp [runTrace, activationTimesFor, timesOf] at h⟩
  | cons st rest ih =>
    intro ps d
    cases st with
    | dumpReport k2 =>
      obtain ⟨_, hlat, _⟩ := onDumpReport_state k2 ps
      obtain ⟨ihc, ihl⟩ := ih (onDumpReport k2 ps) d
      simp only [runTrace]
      refine ⟨ihc, ?_⟩
      intro t0 ht0 t1 ht1
      refine ihl t0 ?_ t1 ht1
      rw [hlat]
      exact ht0
    | logEvent e =>
      simp only [runTrace]
      obtain ⟨ihc, ihl⟩ := ih (OnLogEvent P e ps d).1 (OnLogEvent P e ps d).2.1
      have htimes : activationTimesFor uid
          ((OnLogEvent P e ps d).2.2.map (fun em => (e.now, em)) ++
            (runTrace P rest (OnLogEvent P e ps d).1 (OnLogEvent P e ps d).2.1).2.2)
          = List.replicate ((OnLogEvent P e ps d).2.2.countP (isActivationFor uid))
              e.now ++
            activationTimesFor uid
              (runTrace P rest (OnLogEvent P e ps d).1
                (OnLogEvent P e ps d).2.1).2.2 := by
        unfold activationTimesFor
        rw [timesOf_append, timesOf_map_const]
      rcases OnLogEvent_activation_link P e ps d uid with
          ⟨hc, hl⟩ | ⟨hc, hl, hlink⟩
      · rw [htimes, hc]
        simp only [List.replicate, List.nil_append]
        refine ⟨ihc, ?_⟩
        intro t0 ht0 t1 ht1
        refine ihl t0 ?_ t1 ht1
        rw [hl]
        exact ht0
      · rw [htimes, hc]
        simp only [List.replicate, List.singleton_append]
        constructor
        · rw [List.chain'_cons']
          refine ⟨?_, ihc⟩
          intro t1 ht1
          exact ihl e.now hl t1 ht1
        · intro t0 ht0 t1 ht1
          simp only [List.head?_cons, Option.some.injEq] at ht1
          rw [← ht1]
          exact hlink t0 ht0

/-- C8 (amended): over any trace of OnLogEvent calls and dump reports that
contains no dump report for the observed key — onDumpReport deliberately
erases the key's last-broadcast stamp (line 691), re-allowing a broadcast
inside the window — successive data-ready broadcasts for that key are at
least kMinBroadcastPeriodNs apart; successive activation broadcasts to a uid
are at least kMinActivationBroadcastPeriodNs apart over any trace; both
windows are closed-open (a request at exactly the minimum is allowed); and
an activation request strictly inside the window records exactly a guardrail
hit for the uid, invokes no broadcast callback, and abandons the remaining
uids. -/
theorem broadcast_rate_limits (P : Params) (key : ConfigKey) (uid : Int)
    (trace : List PStep) (ps : ProcState) (d : Disk)
    (hnd : (ps.metricsManagers.map Prod.fst).Nodup)
    (hnodump : trace.all (fun st => ! st.isDumpFor key) = true) :
    List.Chain' (fun a b => a + P.kMinBroadcastPeriodNs ≤ b)
      (broadcastTimesFor key (runTrace P trace ps d).2.2) ∧
    List.Chain' (fun a b => a + P.kMinActivationBroadcastPeriodNs ≤ b)
      (activationTimesFor uid (runTrace P trace ps d).2.2) ∧
    (∀ (lbt : List (ConfigKey × Int)) (t0 : Int), alookup lbt key = some t0 →
      broadcastDue P (t0 + P.kMinBroadcastPeriodNs) lbt key = true) ∧
    (∀ (s : EventStep) (acfg : List (Int × List Int)) (lat : List (Int × Int))
        (t0 : Int),
      alookup lat uid = some t0 →
      s.now = t0 + P.kMinActivationBroadcastPeriodNs →
      s.activationOk uid = true →
      (activationLoopGo P s acfg [uid] lat).2
        = [Emit.activationSent uid ((alookup acfg uid).getD [])]) ∧
    (∀ (s : EventStep) (acfg : List (Int × List Int)) (rest : List Int)
        (lat : List (Int × Int)) (t0 : Int),
      alookup lat uid = some t0 →
      s.now - t0 < P.kMinActivationBroadcastPeriodNs →
      (activationLoopGo P s acfg (uid :: rest) lat)
        = (lat, [Emit.activationGuardrailHit uid])) := by
  refine ⟨(trace_broadcast_sep P key trace ps d hnd hnodump).1,
    (trace_activation_sep P uid trace ps d).1, ?_, ?_, ?_⟩
  · intro lbt t0 h
    unfold broadcastDue
    rw [h]
    simp
  · intro s acfg lat t0 h hnow hok
    have hb : ¬ (s.now - t0 < P.kMinActivationBroadcastPeriodNs) := by omega
    simp [activationLoopGo, h, hb, hok]
  · intro s acfg rest lat t0 h hlt
    simp [activationLoopGo, h, hlt]

/-- Counterexample to C8 as stated: a broadcast at clock 0, a dump report for
the key (which erases its last-broadcast stamp, line 691), then a broadcast
at clock 1 — two successful data-ready broadcasts only 1 ns apart although
kMinBroadcastPeriodNs is 10. -/
theorem broadcast_sep_dump_cx :
    broadcastTimesFor cxKey
        (runTrace c8P
          [PStep.logEvent (c8Step 0), PStep.dumpReport cxKey,
            PStep.logEvent (c8Step 1)]
          (initialProcState [(cxKey, c8Mgr)]) emptyDisk).2.2 = [0, 1] ∧
    ¬ List.Chain' (fun a b => a + c8P.kMinBroadcastPeriodNs ≤ b) [0, 1] := by
  constructor
  · decide
  · intro h
    rw [List.chain'_cons] at h
    exact absurd h.1 (by decide)

theorem broadcast_rate_limits_witness :
    ((((initialProcState [(cxKey, c8Mgr)]).metricsManagers.map Prod.fst).Nodup) ∧
      ([PStep.logEvent (c8Step 0), PStep.logEvent (c8Step 20)].all
        (fun st => ! st.isDumpFor cxKey)) = true) ∧
    List.Chain' (fun a b => a + c8P.kMinBroadcastPeriodNs ≤ b)
      (broadcastTimesFor cxKey
        (runTrace c8P [PStep.logEvent (c8Step 0), PStep.logEvent (c8Step 20)]
          (initialProcState [(cxKey, c8Mgr)]) emptyDisk).2.2) :=
  ⟨⟨by decide, by decide⟩,
    (broadcast_rate_limits c8P cxKey 0
      [PStep.logEvent (c8Step 0), PStep.logEvent (c8Step 20)]
      (initialProcState [(cxKey, c8Mgr)]) emptyDisk
      (by decide) (by decide)).1⟩

end Statsd
